import Mathlib

/-!
Verification of the session-acquisition and usage-data orchestration core of
the cursor-team-on-demand-usage-indicator repository.

The development shallowly embeds the relevant TypeScript sources:

* `src/login.ts` (`CdpLoginSession`, `buildCookieString`, cleanup flow) —
  stateful code is embedded as explicit state passing over `SessionState`;
  the outcomes of the two fallible asynchronous steps of `finish`
  (`waitForWsUrl`, `extractCookies`) are supplied by a `FinishEnv` record,
  mirroring the sequential `await` structure of the source.
* `src/jwt.ts` (`normalizeToken`, `base64UrlToBase64`, `decodePayload`,
  `getExp`, `isValid`) — pure string functions, embedded over `List Char`
  with a constructive model of the platform primitives they rely on
  (base64 decoding, UTF-8 decoding, `JSON.parse`).
* `src/api.ts` (`formatSpend`, `sumTodaySpendCents`, `fetchUsageData`,
  module-level cache) — the network layer is supplied by an `ApiEnv` record
  of per-endpoint outcomes; the cache is explicit state; the list of network
  calls actually performed is returned so that cache-hit claims can speak
  about the absence of network access.

Machine numbers are embedded as `Nat`/`Int`; the repository only ever
manipulates integral cent amounts, epoch instants and counts, so no
floating-point behaviour is load-bearing for the claims treated here.
-/

set_option maxRecDepth 100000

namespace Cursor

/-! ## Generic character-list utilities (models of JS string primitives) -/

/-- Model of JS `String.prototype.includes` on character lists: `hasSub pat s`
is true when `pat` occurs contiguously inside `s`. -/
def hasSub (pat : List Char) : List Char → Bool
  | [] => pat.isEmpty
  | c :: rest => pat.isPrefixOf (c :: rest) || hasSub pat rest

/-- Model of JS `String.prototype.split(".")`: splits a character list at
every `'.'`, keeping empty segments, exactly like the JS method. -/
def splitOnDot : List Char → List (List Char)
  | [] => [[]]
  | c :: rest =>
    if c = '.' then [] :: splitOnDot rest
    else
      match splitOnDot rest with
      | s :: ss => (c :: s) :: ss
      | [] => [[c]]

/-- Fuel-driven worker for `replaceAllL`. The fuel starts at the input length,
which is enough because each step either consumes one character or a
non-empty pattern occurrence. -/
def replaceAllAux (pat rep : List Char) : Nat → List Char → List Char
  | 0, s => s
  | Nat.succ _, [] => []
  | Nat.succ fuel, c :: rest =>
    if pat ≠ [] ∧ pat.isPrefixOf (c :: rest) then
      rep ++ replaceAllAux pat rep fuel (List.drop pat.length (c :: rest))
    else
      c :: replaceAllAux pat rep fuel rest

/-- Model of JS `String.prototype.replaceAll` with a plain-string pattern:
replaces every non-overlapping occurrence of `pat` by `rep`, scanning left to
right. -/
def replaceAllL (s pat rep : List Char) : List Char :=
  replaceAllAux pat rep s.length s

/-- Model of `indexOf("::") »= slice(i + 2)`: returns the suffix after the
first occurrence of `"::"`, or `none` when no occurrence exists. -/
def afterDoubleColon : List Char → Option (List Char)
  | [] => none
  | c :: rest =>
    if c = ':' ∧ rest.head? = some ':' then some rest.tail
    else afterDoubleColon rest

/-- JS whitespace characters accepted by `Number.parseInt` before the sign. -/
def isJsSpace (c : Char) : Bool :=
  c = ' ' || c = '\t' || c = '\n' || c = '\r' || c.toNat = 11 || c.toNat = 12

/-- Numeric value of a decimal digit list, most significant first. -/
def decimalValue (ds : List Char) : Nat :=
  ds.foldl (fun acc d => acc * 10 + (d.toNat - '0'.toNat)) 0

/-- Model of JS `Number.parseInt(s, 10)` followed by the NaN test: skips
leading whitespace, consumes an optional sign and then the longest leading
run of decimal digits; `none` models a NaN result (no digits at all). The
repository uses the result only through `Number.isFinite` and a sign test, so
an exact `Int` result is a faithful embedding for every input it accepts. -/
def parseIntJS (s : String) : Option Int :=
  let l := s.data.dropWhile isJsSpace
  let signed : Bool × List Char :=
    match l with
    | '-' :: rest => (true, rest)
    | '+' :: rest => (false, rest)
    | _ => (false, l)
  let ds := signed.2.takeWhile Char.isDigit
  if ds.isEmpty then none
  else some (if signed.1 then -(decimalValue ds : Int) else (decimalValue ds : Int))

/-! ## `src/login.ts` — `CdpLoginSession` (spec name: BrowserSessionCapture) -/

namespace Login

/-- One cookie record of a Chrome DevTools `Storage.getCookies` reply; every
field is optional exactly as in the source's `CdpCookiesResponse` type. -/
structure CdpCookie where
  name : Option String
  value : Option String
  domain : Option String
deriving DecidableEq

/-- The `result` object of a `Storage.getCookies` reply. -/
structure CdpResult where
  cookies : Option (List CdpCookie)
deriving DecidableEq

/-- A parsed control-channel reply, mirroring `CdpCookiesResponse`. -/
structure CdpCookiesResponse where
  result : Option CdpResult
deriving DecidableEq

/-- Mirrors `buildCookieString`: finds the `WorkosCursorSessionToken` cookie
and the optional `team_id` cookie scoped to `cursor.com`, failing when the
session cookie is absent. `domain?.includes(...)` is optional chaining, so a
missing domain never matches. -/
def buildCookieString (response : CdpCookiesResponse) : Except String String :=
  let cookies := ((response.result.map CdpResult.cookies).join).getD []
  let isSession : CdpCookie → Bool := fun cookie =>
    cookie.name = some "WorkosCursorSessionToken" &&
      (match cookie.domain with
       | some d => hasSub "cursor.com".data d.data
       | none => false)
  let isTeam : CdpCookie → Bool := fun cookie =>
    cookie.name = some "team_id" &&
      (match cookie.domain with
       | some d => hasSub "cursor.com".data d.data
       | none => false)
  let session := (cookies.find? isSession).bind CdpCookie.value
  let teamId := (cookies.find? isTeam).bind CdpCookie.value
  match session with
  | none => .error "Could not find WorkosCursorSessionToken cookie."
  | some sessionValue =>
    .ok (match teamId with
         | some teamValue =>
           "WorkosCursorSessionToken=" ++ sessionValue ++ "; team_id=" ++ teamValue
         | none => "WorkosCursorSessionToken=" ++ sessionValue)

/-- The mutable resources owned by a `CdpLoginSession`: the `closed` guard
flag, whether `chromeProcess.kill()` has been issued, whether the temporary
profile directory has been removed, and a count of how many times the
kill-and-remove body of `cleanup` has actually run. -/
structure SessionState where
  closed : Bool
  processKilled : Bool
  profileDirRemoved : Bool
  cleanupRuns : Nat
deriving DecidableEq

/-- State of a freshly constructed session: `closed = false`, process alive,
profile directory present (mirrors the private constructor plus `start`). -/
def SessionState.initial : SessionState :=
  { closed := false, processKilled := false, profileDirRemoved := false, cleanupRuns := 0 }

/-- Mirrors `cleanup()`: an early return when `closed` is already set,
otherwise set the flag, kill the process and remove the profile directory
(the `delay(250)` has no observable effect in this state model). The
function is total: cleanup never throws. -/
def cleanup (s : SessionState) : SessionState :=
  if s.closed then s
  else
    { closed := true
      processKilled := true
      profileDirRemoved := true
      cleanupRuns := s.cleanupRuns + 1 }

/-- Outcomes of the asynchronous collaborators of `finish`:
`waitForWsUrl` resolves to the debugger WebSocket URL or rejects (timeout),
and `cdpMessage url` is the parse outcome of the first control-channel reply
received at that URL (a rejection models a WebSocket error or a JSON parse
failure in the `message` handler). -/
structure FinishEnv where
  waitForWsUrl : Except String String
  cdpMessage : String → Except String CdpCookiesResponse

/-- Mirrors `extractCookies(wsUrl)`: resolves with `buildCookieString` applied
to the first parsed reply, and rejects when the channel errors, the reply does
not parse, or `buildCookieString` throws. -/
def extractCookies (env : FinishEnv) (wsUrl : String) : Except String String :=
  match env.cdpMessage wsUrl with
  | .error e => .error e
  | .ok response => buildCookieString response

/-- Mirrors `finish()`: `await waitForWsUrl`, then `await extractCookies`,
then `await this.cleanup()`, then return the cookie string. A rejection of
either awaited step propagates immediately, skipping the remaining
statements — exactly as in the source, which has no `try`/`finally`. -/
def finish (env : FinishEnv) (s : SessionState) : Except String String × SessionState :=
  match env.waitForWsUrl with
  | .error e => (.error e, s)
  | .ok wsUrl =>
    match extractCookies env wsUrl with
    | .error e => (.error e, s)
    | .ok cookies => (.ok cookies, cleanup s)

/-- A concrete session cookie record (used to instantiate capture-flow
theorems). -/
def sampleCookie : CdpCookie :=
  { name := some "WorkosCursorSessionToken"
    value := some "tok"
    domain := some ".cursor.com" }

/-- A concrete one-cookie control-channel reply carrying the session token. -/
def sampleCookiesResponse : CdpCookiesResponse :=
  { result := some { cookies := some [sampleCookie] } }

/-- A concrete capture environment whose two steps both succeed. -/
def sampleFinishEnv : FinishEnv :=
  { waitForWsUrl := .ok "ws://127.0.0.1:9222/devtools"
    cdpMessage := fun _ => .ok sampleCookiesResponse }

end Login

/-! ## `src/api.ts` — formatting helpers and the fetch orchestrator -/

namespace Api

/-- Fuel-driven decimal digit printer; fuel `n + 1` always suffices. -/
def natDigitsAux : Nat → Nat → List Char
  | 0, _ => []
  | Nat.succ fuel, n =>
    if n < 10 then [Char.ofNat ('0'.toNat + n)]
    else natDigitsAux fuel (n / 10) ++ [Char.ofNat ('0'.toNat + n % 10)]

/-- Decimal digits of a natural number, most significant first. -/
def natDigits (n : Nat) : List Char :=
  natDigitsAux (n + 1) n

/-- Inserts `','` after every group of three characters, counting from the
end of the (already reversed) digit list. -/
def groupAux : List Char → List Char
  | d1 :: d2 :: d3 :: r :: rs => d1 :: d2 :: d3 :: ',' :: groupAux (r :: rs)
  | l => l

/-- en-US thousands grouping of a digit list: a `','` every three digits,
counting from the right. Models `Intl.NumberFormat("en-US")` grouping. -/
def groupDigits (ds : List Char) : List Char :=
  (groupAux ds.reverse).reverse

/-- Two-digit rendering of a value below 100 (the fraction part produced by
`minimumFractionDigits: 2`). -/
def twoDigits (n : Nat) : List Char :=
  if n < 10 then '0' :: natDigits n else natDigits n

/-- Mirrors `formatSpend`: divides the cent amount by 100 and renders it as
an en-US formatted number with exactly two fraction digits behind a leading
dollar sign and space. Exact integer cents make the division exact, so the
`Intl.NumberFormat` rounding step is the identity and the format is the
grouped integer part, a dot, and the zero-padded cent remainder. -/
def formatSpend (cents : Int) : String :=
  let sign := if cents < 0 then "-" else ""
  let dollars := cents.natAbs / 100
  let rem := cents.natAbs % 100
  "$ " ++ sign ++ String.mk (groupDigits (natDigits dollars)) ++ "." ++ String.mk (twoDigits rem)

/-- Mirrors the `AuthMeResponse` interface (every field optional). -/
structure AuthMeResponse where
  email : Option String
  id : Option Int
  name : Option String
  sub : Option String
deriving DecidableEq

/-- The `onDemand` object inside `individualUsage`. -/
structure IndividualOnDemand where
  used : Option Int
deriving DecidableEq

/-- The `individualUsage` object of a usage-summary reply. -/
structure IndividualUsage where
  onDemand : Option IndividualOnDemand
deriving DecidableEq

/-- The `onDemand` object inside `teamUsage` (read nowhere, kept for shape
fidelity with the source interface). -/
structure TeamOnDemand where
  used : Option Int
  limit : Option Int
  remaining : Option Int
deriving DecidableEq

/-- The `teamUsage` object of a usage-summary reply. -/
structure TeamUsage where
  onDemand : Option TeamOnDemand
deriving DecidableEq

/-- Mirrors the `UsageSummaryResponse` interface. -/
structure UsageSummaryResponse where
  billingCycleStart : Option String
  billingCycleEnd : Option String
  individualUsage : Option IndividualUsage
  teamUsage : Option TeamUsage
deriving DecidableEq

/-- The `tokenUsage` object of one usage event. -/
structure TokenUsage where
  totalCents : Option Int
deriving DecidableEq

/-- Mirrors the `UsageEvent` interface. -/
structure UsageEvent where
  tokenUsage : Option TokenUsage
  isChargeable : Option Bool
deriving DecidableEq

/-- Mirrors the `FilteredUsageEventsResponse` interface. -/
structure FilteredUsageEventsResponse where
  totalUsageEventsCount : Option Int
  usageEventsDisplay : Option (List UsageEvent)
deriving DecidableEq

/-- Mirrors `sumTodaySpendCents`: adds up every present `totalCents` field
(the source's `Number.isFinite` guard always holds in the integral model) and
applies `Math.round`, which is the identity on an integral total. -/
def sumTodaySpendCents (response : FilteredUsageEventsResponse) : Int :=
  let events := response.usageEventsDisplay.getD []
  let total := events.foldl
    (fun acc event =>
      match event.tokenUsage with
      | some tu =>
        match tu.totalCents with
        | some cents => acc + cents
        | none => acc
      | none => acc)
    0
  total

/-- Mirrors the `UsageData` result type from `src/types.ts` as consumed by
`fetchUsageData` (absent optional fields are `none`). -/
structure UsageData where
  userEmail : String
  todaySpendFormatted : String
  mtdSpendFormatted : String
  cycleStartDate : Option String
  cycleEndDate : Option String
  daysUntilCycleEnd : Option Int
deriving DecidableEq

/-- Mirrors the module-level `CacheEntry` record. -/
structure CacheEntry where
  key : String
  expiresAt : Int
  value : UsageData
deriving DecidableEq

/-- The three HTTPS endpoints `fetchUsageData` can touch. -/
inductive NetCall where
  | authMe
  | usageSummary
  | usageEvents
deriving DecidableEq

/-- Errors thrown by `fetchUsageData` itself: the invalid-team-id rejection
thrown before any network access, and a propagated upstream failure from the
required identity call. -/
inductive ApiError where
  | invalidTeamId
  | upstream (message : String)
deriving DecidableEq

/-- Outcomes of the remote endpoints plus the two date primitives
(`new Date(iso).getTime()`, which is `none` for NaN, and the en-US
`toLocaleDateString` rendering). `usageEvents` receives the team id, user id
and `now`, the arguments the source request body depends on. -/
structure ApiEnv where
  authMe : Except String AuthMeResponse
  usageSummary : Except String UsageSummaryResponse
  usageEvents : Int → Int → Int → Except String FilteredUsageEventsResponse
  dateParseMs : String → Option Int
  formatDate : Int → String

/-- Mirrors `formatDateFromIso`: falsy (absent or empty) input gives
`undefined`, an unparsable date gives `undefined`, otherwise the short
en-US month-day rendering. -/
def formatDateFromIso (env : ApiEnv) (isoString : Option String) : Option String :=
  match isoString with
  | none => none
  | some s =>
    if s = "" then none
    else
      match env.dateParseMs s with
      | none => none
      | some ms => some (env.formatDate ms)

/-- `CACHE_TTL_MS` from the source. -/
def CACHE_TTL_MS : Int := 10000

/-- `DAY_MS` from the source. -/
def DAY_MS : Int := 86400000

/-- Decidable equality for `Except`, needed to evaluate concrete fetch
outcomes in witnesses. -/
instance {ε α : Type} [DecidableEq ε] [DecidableEq α] : DecidableEq (Except ε α) := fun x y =>
  match x, y with
  | .ok a, .ok b =>
    if h : a = b then .isTrue (by rw [h]) else .isFalse (fun hc => by cases hc; exact h rfl)
  | .error a, .error b =>
    if h : a = b then .isTrue (by rw [h]) else .isFalse (fun hc => by cases hc; exact h rfl)
  | .ok _, .error _ => .isFalse (fun hc => by cases hc)
  | .error _, .ok _ => .isFalse (fun hc => by cases hc)

/-- Result of one `fetchUsageData` invocation: the returned value or thrown
error, the cache slot after the call, and the network calls performed. -/
structure FetchResult where
  outcome : Except ApiError UsageData
  cache : Option CacheEntry
  calls : List NetCall
deriving DecidableEq

/-- The part of `fetchUsageData` after the cache check: the required
`fetchAuthMe` call, the settled pair of optional calls, aggregation and the
cache write. `events` is the fulfilled value of the second settled promise,
which is `null` (here `none`) when `authMe.id` is not numeric or when the
events call rejects. -/
def fetchNetwork (numericTeamId : Int) (key : String) (now : Int)
    (cache : Option CacheEntry) (env : ApiEnv) : FetchResult :=
  match env.authMe with
  | .error e => { outcome := .error (.upstream e), cache := cache, calls := [.authMe] }
  | .ok authMe =>
    let userId := authMe.id
    let summaryResult := env.usageSummary
    let eventsPerformed := userId.isSome
    let eventsResult : Except String (Option FilteredUsageEventsResponse) :=
      match userId with
      | some uid => (env.usageEvents numericTeamId uid now).map some
      | none => .ok none
    let summary : Option UsageSummaryResponse := summaryResult.toOption
    let events : Option FilteredUsageEventsResponse := (eventsResult.toOption).join
    let todaySpendCents : Int :=
      match events with
      | some e => sumTodaySpendCents e
      | none => 0
    let mtdSpendCents : Int :=
      (((summary.bind UsageSummaryResponse.individualUsage).bind
        IndividualUsage.onDemand).bind IndividualOnDemand.used).getD 0
    let cycleStartDate := formatDateFromIso env (summary.bind UsageSummaryResponse.billingCycleStart)
    let cycleEndDate := formatDateFromIso env (summary.bind UsageSummaryResponse.billingCycleEnd)
    let cycleEndMs : Option Int :=
      match summary.bind UsageSummaryResponse.billingCycleEnd with
      | some s => if s = "" then none else env.dateParseMs s
      | none => none
    let daysUntilCycleEnd : Option Int :=
      cycleEndMs.map (fun ms => Int.fdiv (ms - now) DAY_MS)
    let usageData : UsageData :=
      { userEmail := authMe.email.getD "unknown"
        todaySpendFormatted := formatSpend todaySpendCents
        mtdSpendFormatted := formatSpend mtdSpendCents
        cycleStartDate := cycleStartDate
        cycleEndDate := cycleEndDate
        daysUntilCycleEnd := daysUntilCycleEnd }
    { outcome := .ok usageData
      cache := some { key := key, expiresAt := now + CACHE_TTL_MS, value := usageData }
      calls := [.authMe, .usageSummary] ++ (if eventsPerformed then [.usageEvents] else []) }

/-- Mirrors `fetchUsageData`: team-id validation (`Number.parseInt` followed
by the finiteness and positivity test), the single-slot cache check with a
strict `expiresAt > now` comparison, and the network flow of `fetchNetwork`. -/
def fetchUsageData (teamId : String) (cookieString : String) (now : Int)
    (cache : Option CacheEntry) (env : ApiEnv) : FetchResult :=
  match parseIntJS teamId with
  | none => { outcome := .error .invalidTeamId, cache := cache, calls := [] }
  | some numericTeamId =>
    if numericTeamId ≤ 0 then
      { outcome := .error .invalidTeamId, cache := cache, calls := [] }
    else
      let key := toString numericTeamId ++ ":" ++ cookieString
      match cache with
      | some entry =>
        if entry.key = key ∧ entry.expiresAt > now then
          { outcome := .ok entry.value, cache := cache, calls := [] }
        else
          fetchNetwork numericTeamId key now cache env
      | none => fetchNetwork numericTeamId key now cache env

/-- A concrete two-event usage reply (25 cents total, one event without a
cost field), used to instantiate orchestrator theorems. -/
def sampleEventsResponse : FilteredUsageEventsResponse :=
  { totalUsageEventsCount := none
    usageEventsDisplay := some
      [{ tokenUsage := some { totalCents := some 25 }, isChargeable := some true }
      ,{ tokenUsage := none, isChargeable := none }] }

/-- A concrete identity reply with email and numeric id. -/
def sampleAuthMe : AuthMeResponse :=
  { email := some "user@example.com", id := some 7, name := none, sub := none }

/-- A concrete identity reply whose id field is absent. -/
def sampleAuthMeNoId : AuthMeResponse :=
  { email := some "user@example.com", id := none, name := none, sub := none }

/-- An environment where identity and events succeed but the usage-summary
endpoint is down. -/
def sampleEnvSummaryDown : ApiEnv :=
  { authMe := .ok sampleAuthMe
    usageSummary := .error "summary down"
    usageEvents := fun _ _ _ => .ok sampleEventsResponse
    dateParseMs := fun _ => none
    formatDate := fun _ => "" }

/-- An environment whose identity reply carries no numeric id. -/
def sampleEnvNoId : ApiEnv :=
  { authMe := .ok sampleAuthMeNoId
    usageSummary := .ok { billingCycleStart := none, billingCycleEnd := none
                          individualUsage := none, teamUsage := none }
    usageEvents := fun _ _ _ => .ok sampleEventsResponse
    dateParseMs := fun _ => none
    formatDate := fun _ => "" }

end Api

/-! ## `src/jwt.ts` — token decoding and validity

The JWT pipeline relies on three platform primitives: base64 decoding
(`Buffer.from(payload, "base64")`), UTF-8 decoding (`.toString("utf8")`) and
`JSON.parse`. They are modelled constructively below, together with the
inverse primitives (`Buffer.from(json).toString("base64url")`,
`JSON.stringify`) that the repository's token-building tests use, so that the
round-trip claim can be stated and proved. -/

namespace Jwt

/-- Character of one base64url sextet, the alphabet produced by
`Buffer.toString("base64url")` (`-` and `_` at 62 and 63, no padding). -/
def b64Char (n : Nat) : Char :=
  if n < 26 then Char.ofNat ('A'.toNat + n)
  else if n < 52 then Char.ofNat ('a'.toNat + (n - 26))
  else if n < 62 then Char.ofNat ('0'.toNat + (n - 52))
  else if n = 62 then '-'
  else '_'

/-- Sextet value of a standard-alphabet base64 character (`+` and `/`), the
alphabet consumed by `Buffer.from(_, "base64")` after the source's
`base64UrlToBase64` normalization. -/
def b64Val (c : Char) : Option Nat :=
  if 'A' ≤ c ∧ c ≤ 'Z' then some (c.toNat - 'A'.toNat)
  else if 'a' ≤ c ∧ c ≤ 'z' then some (c.toNat - 'a'.toNat + 26)
  else if '0' ≤ c ∧ c ≤ '9' then some (c.toNat - '0'.toNat + 52)
  else if c = '+' then some 62
  else if c = '/' then some 63
  else none

/-- Base64url encoding of a byte list (no padding), three bytes to four
characters; models `Buffer.toString("base64url")`. -/
def encodeB64Url : List Nat → List Char
  | b1 :: b2 :: b3 :: rest =>
    b64Char (b1 / 4) :: b64Char ((b1 % 4) * 16 + b2 / 16) ::
      b64Char ((b2 % 16) * 4 + b3 / 64) :: b64Char (b3 % 64) :: encodeB64Url rest
  | [b1, b2] => [b64Char (b1 / 4), b64Char ((b1 % 4) * 16 + b2 / 16), b64Char ((b2 % 16) * 4)]
  | [b1] => [b64Char (b1 / 4), b64Char ((b1 % 4) * 16)]
  | [] => []

/-- The per-character alphabet translation of `base64UrlToBase64`. -/
def b64UrlToStd (c : Char) : Char :=
  if c = '-' then '+' else if c = '_' then '/' else c

/-- Mirrors `base64UrlToBase64` from `src/jwt.ts`: translate `-`→`+` and
`_`→`/`, then pad with `=` to a multiple of four characters. -/
def base64UrlToBase64 (payload : List Char) : List Char :=
  let normalized := payload.map b64UrlToStd
  let paddingLength := (4 - normalized.length % 4) % 4
  normalized ++ List.replicate paddingLength '='

/-- Base64 decoding of a padded standard-alphabet string to bytes; models
`Buffer.from(payload, "base64")` on well-formed input (ill-formed input is
rejected rather than salvaged — the repository only ever feeds the result to
`JSON.parse`, which fails on salvage output anyway). -/
def decodeB64 : List Char → Option (List Nat)
  | [] => some []
  | c1 :: c2 :: c3 :: c4 :: rest =>
    match b64Val c1, b64Val c2 with
    | some v1, some v2 =>
      if c3 = '=' then
        if c4 = '=' ∧ rest = [] then some [v1 * 4 + v2 / 16] else none
      else
        match b64Val c3 with
        | some v3 =>
          if c4 = '=' then
            if rest = [] then some [v1 * 4 + v2 / 16, (v2 % 16) * 16 + v3 / 4] else none
          else
            match b64Val c4 with
            | some v4 =>
              (decodeB64 rest).map fun bs =>
                (v1 * 4 + v2 / 16) :: ((v2 % 16) * 16 + v3 / 4) :: ((v3 % 4) * 64 + v4) :: bs
            | none => none
        | none => none
    | _, _ => none
  | _ => none

/-- UTF-8 encoding of one unicode scalar; models how `Buffer.from(string)`
encodes each character. -/
def utf8EncodeChar (c : Char) : List Nat :=
  let n := c.toNat
  if n < 128 then [n]
  else if n < 2048 then [192 + n / 64, 128 + n % 64]
  else if n < 65536 then [224 + n / 4096, 128 + n / 64 % 64, 128 + n % 64]
  else [240 + n / 262144, 128 + n / 4096 % 64, 128 + n / 64 % 64, 128 + n % 64]

/-- UTF-8 encoding of a character list. -/
def utf8Encode : List Char → List Nat
  | [] => []
  | c :: cs => utf8EncodeChar c ++ utf8Encode cs

mutual

/-- UTF-8 decoding of a byte list; models `Buffer.toString("utf8")` on
well-formed input (a malformed sequence yields `none` where Node would emit
replacement characters that no JSON payload of this repository produces).
A lead byte selects how many continuation bytes follow; the scalar value is
accumulated six bits at a time by the continuation helpers. -/
def utf8Decode : List Nat → Option (List Char)
  | [] => some []
  | b :: rest =>
    if b < 128 then (utf8Decode rest).map (Char.ofNat b :: ·)
    else if b < 192 then none
    else if b < 224 then utf8DecodeCont1 (b - 192) rest
    else if b < 240 then utf8DecodeCont2 (b - 224) rest
    else if b < 248 then utf8DecodeCont3 (b - 240) rest
    else none

/-- Consumes the last continuation byte and emits the decoded scalar. -/
def utf8DecodeCont1 (acc : Nat) : List Nat → Option (List Char)
  | b :: rest =>
    if 128 ≤ b ∧ b < 192 then (utf8Decode rest).map (Char.ofNat (acc * 64 + (b - 128)) :: ·)
    else none
  | [] => none

/-- Consumes the antepenultimate continuation byte. -/
def utf8DecodeCont2 (acc : Nat) : List Nat → Option (List Char)
  | b :: rest =>
    if 128 ≤ b ∧ b < 192 then utf8DecodeCont1 (acc * 64 + (b - 128)) rest
    else none
  | [] => none

/-- Consumes the first of three continuation bytes. -/
def utf8DecodeCont3 (acc : Nat) : List Nat → Option (List Char)
  | b :: rest =>
    if 128 ≤ b ∧ b < 192 then utf8DecodeCont2 (acc * 64 + (b - 128)) rest
    else none
  | [] => none

end

mutual

/-- JSON values as manipulated by the repository: numbers are integral (the
only numeric claims it reads or writes are integer epoch seconds and cent
amounts) and strings are unicode-scalar sequences. -/
inductive Json where
  | null
  | bool (b : Bool)
  | num (n : Int)
  | str (s : List Char)
  | arr (elements : JsonArr)
  | obj (fields : JsonObj)

/-- Array element list of a JSON value. -/
inductive JsonArr where
  | nil
  | cons (head : Json) (tail : JsonArr)

/-- Field list of a JSON object, in textual order (duplicates permitted at
the syntax level; property access resolves to the last occurrence, as
`JSON.parse` assignments do). -/
inductive JsonObj where
  | nil
  | cons (key : List Char) (value : Json) (tail : JsonObj)

end

/-- Hexadecimal digit character (lowercase, as `JSON.stringify` emits in
control-character escapes). -/
def hexDigit (n : Nat) : Char :=
  if n < 10 then Char.ofNat ('0'.toNat + n) else Char.ofNat ('a'.toNat + (n - 10))

/-- Value of a hexadecimal digit character, either case. -/
def hexVal (c : Char) : Option Nat :=
  if '0' ≤ c ∧ c ≤ '9' then some (c.toNat - '0'.toNat)
  else if 'a' ≤ c ∧ c ≤ 'f' then some (c.toNat - 'a'.toNat + 10)
  else if 'A' ≤ c ∧ c ≤ 'F' then some (c.toNat - 'A'.toNat + 10)
  else none

/-- String-literal escaping of one character, as `JSON.stringify` renders it:
quote and backslash get two-character escapes, the five named control
characters get their short escapes, the remaining control characters get
`\u00xx`, and everything else is emitted verbatim. -/
def escapeChar (c : Char) : List Char :=
  if c = '"' then ['\\', '"']
  else if c = '\\' then ['\\', '\\']
  else if c.toNat = 8 then ['\\', 'b']
  else if c.toNat = 9 then ['\\', 't']
  else if c.toNat = 10 then ['\\', 'n']
  else if c.toNat = 12 then ['\\', 'f']
  else if c.toNat = 13 then ['\\', 'r']
  else if c.toNat < 32 then ['\\', 'u', '0', '0', hexDigit (c.toNat / 16), hexDigit (c.toNat % 16)]
  else [c]

/-- Escaped body of a JSON string literal. -/
def escapeBody : List Char → List Char
  | [] => []
  | c :: cs => escapeChar c ++ escapeBody cs

/-- A complete JSON string literal including the surrounding quotes. -/
def printStr (s : List Char) : List Char :=
  '"' :: escapeBody s ++ ['"']

/-- Decimal rendering of an integer, as `JSON.stringify` renders an integral
number. -/
def printInt (n : Int) : List Char :=
  if n < 0 then '-' :: Api.natDigits n.natAbs else Api.natDigits n.natAbs

mutual

/-- Models `JSON.stringify` (no spacing, fields in order). -/
def printJson : Json → List Char
  | .null => "null".data
  | .bool true => "true".data
  | .bool false => "false".data
  | .num n => printInt n
  | .str s => printStr s
  | .arr .nil => "[]".data
  | .arr (.cons v vs) => '[' :: (printItems (JsonArr.cons v vs) ++ [']'])
  | .obj .nil => "{}".data
  | .obj (.cons k v fs) => '{' :: (printFields (JsonObj.cons k v fs) ++ ['}'])

/-- Comma-separated rendering of array elements. -/
def printItems : JsonArr → List Char
  | .nil => []
  | .cons v .nil => printJson v
  | .cons v (.cons w ws) => printJson v ++ ',' :: printItems (JsonArr.cons w ws)

/-- Comma-separated rendering of object fields. -/
def printFields : JsonObj → List Char
  | .nil => []
  | .cons k v .nil => printStr k ++ ':' :: printJson v
  | .cons k v (.cons k2 v2 fs) =>
    printStr k ++ ':' :: printJson v ++ ',' :: printFields (JsonObj.cons k2 v2 fs)

end

/-- Decimal digit test on the JSON number grammar (`0`–`9`). -/
def isDigitChar (c : Char) : Bool :=
  48 ≤ c.toNat && c.toNat ≤ 57

/-- The decoded character of a simple (single-letter) escape sequence, or
`none` when the letter is not a simple escape. -/
def simpleEscape (e : Char) : Option Char :=
  if e = '"' then some '"'
  else if e = '\\' then some '\\'
  else if e = '/' then some '/'
  else if e = 'b' then some (Char.ofNat 8)
  else if e = 'f' then some (Char.ofNat 12)
  else if e = 'n' then some (Char.ofNat 10)
  else if e = 'r' then some (Char.ofNat 13)
  else if e = 't' then some (Char.ofNat 9)
  else none

mutual

/-- Parses the body of a JSON string literal after the opening quote,
returning the content and the characters after the closing quote. Raw
control characters are rejected, escapes are decoded; a `\u` escape in the
surrogate range is rejected (the repository never produces one). -/
def parseStrBody : List Char → Option (List Char × List Char)
  | [] => none
  | c :: rest =>
    if c = '"' then some ([], rest)
    else if c = '\\' then parseStrEscape rest
    else if c.toNat < 32 then none
    else (parseStrBody rest).map fun p => (c :: p.1, p.2)

/-- Parses the escape sequence after a backslash. -/
def parseStrEscape : List Char → Option (List Char × List Char)
  | [] => none
  | e :: r =>
    match simpleEscape e with
    | some decoded => (parseStrBody r).map fun p => (decoded :: p.1, p.2)
    | none => if e = 'u' then parseStrHex r else none

/-- Parses the four hex digits of a `\u` escape. -/
def parseStrHex : List Char → Option (List Char × List Char)
  | h1 :: h2 :: h3 :: h4 :: r2 =>
    match hexVal h1, hexVal h2, hexVal h3, hexVal h4 with
    | some a, some b, some c2, some d =>
      let v := a * 4096 + b * 256 + c2 * 16 + d
      if v < 55296 ∨ 57344 ≤ v then
        (parseStrBody r2).map fun p => (Char.ofNat v :: p.1, p.2)
      else none
    | _, _, _, _ => none
  | _ => none

end

/-- Consumes the longest run of decimal digits, extending `acc`. -/
def parseDigitsAux (acc : Nat) : List Char → Nat × List Char
  | [] => (acc, [])
  | d :: r =>
    if isDigitChar d then parseDigitsAux (acc * 10 + (d.toNat - '0'.toNat)) r
    else (acc, d :: r)

mutual

/-- Fuel-driven model of `JSON.parse` on the value grammar the repository
exercises: literals, integral numbers, strings, arrays and objects without
interleaving whitespace (exactly the output language of `printJson`, which is
what every payload this core decodes was built from). -/
def parseVal : Nat → List Char → Option (Json × List Char)
  | 0, _ => none
  | Nat.succ _, [] => none
  | Nat.succ fuel, c :: rest =>
    if isDigitChar c then
      let p := parseDigitsAux (c.toNat - '0'.toNat) rest
      some (.num (p.1 : Int), p.2)
    else if c = '-' then
      match rest.head? with
      | some d =>
        if isDigitChar d then
          let p := parseDigitsAux (d.toNat - '0'.toNat) rest.tail
          some (.num (-(p.1 : Int)), p.2)
        else none
      | none => none
    else if c = '"' then
      (parseStrBody rest).map fun p => (.str p.1, p.2)
    else if c = '[' then
      if rest.head? = some ']' then some (.arr .nil, rest.tail)
      else (parseItems fuel rest).map fun p => (.arr p.1, p.2)
    else if c = '{' then
      if rest.head? = some '}' then some (.obj .nil, rest.tail)
      else (parseFields fuel rest).map fun p => (.obj p.1, p.2)
    else if c = 'n' then
      if "ull".data.isPrefixOf rest then some (.null, rest.drop 3) else none
    else if c = 't' then
      if "rue".data.isPrefixOf rest then some (.bool true, rest.drop 3) else none
    else if c = 'f' then
      if "alse".data.isPrefixOf rest then some (.bool false, rest.drop 4) else none
    else none

/-- Parses one or more comma-separated array elements up to `]`. -/
def parseItems : Nat → List Char → Option (JsonArr × List Char)
  | 0, _ => none
  | Nat.succ fuel, s =>
    match parseVal fuel s with
    | some (v, r) =>
      if r.head? = some ',' then (parseItems fuel r.tail).map fun p => (.cons v p.1, p.2)
      else if r.head? = some ']' then some (.cons v .nil, r.tail)
      else none
    | none => none

/-- Parses one or more comma-separated object fields up to `}`. -/
def parseFields : Nat → List Char → Option (JsonObj × List Char)
  | 0, _ => none
  | Nat.succ fuel, s =>
    if s.head? = some '"' then
      match parseStrBody s.tail with
      | some (k, r2) =>
        if r2.head? = some ':' then
          match parseVal fuel r2.tail with
          | some (v, r4) =>
            if r4.head? = some ',' then
              (parseFields fuel r4.tail).map fun p => (.cons k v p.1, p.2)
            else if r4.head? = some '}' then some (.cons k v .nil, r4.tail)
            else none
          | none => none
        else none
      | none => none
    else none

end

/-- Models `JSON.parse`: the whole input must be consumed as one value. -/
def jsonParse (s : List Char) : Option Json :=
  match parseVal (s.length + 1) s with
  | some (v, []) => some v
  | _ => none

/-- True when the input does not start with a decimal digit, so a number
parse just before it stops exactly there. -/
def noLeadingDigit : List Char → Bool
  | [] => true
  | c :: _ => !(isDigitChar c)

mutual

/-- Recursion budget that `parseVal` needs to parse one printed value. -/
def costVal : Json → Nat
  | .null => 1
  | .bool _ => 1
  | .num _ => 1
  | .str _ => 1
  | .arr .nil => 1
  | .arr (.cons v vs) => 1 + costItems (JsonArr.cons v vs)
  | .obj .nil => 1
  | .obj (.cons k v fs) => 1 + costFields (JsonObj.cons k v fs)

/-- Budget that `parseItems` needs for a printed element list. -/
def costItems : JsonArr → Nat
  | .nil => 0
  | .cons v vs => 1 + costVal v + costItems vs

/-- Budget that `parseFields` needs for a printed field list. -/
def costFields : JsonObj → Nat
  | .nil => 0
  | .cons _ v fs => 1 + costVal v + costFields fs

end

/-- Mirrors `normalizeToken`: percent-decode the literal `%3A` and `%253A`
sequences to `:`, then strip everything up to and including the first `::`
when one occurs. -/
def normalizeToken (token : List Char) : List Char :=
  let decoded := replaceAllL (replaceAllL token "%3A".data ":".data) "%253A".data ":".data
  match afterDoubleColon decoded with
  | some suffix => suffix
  | none => decoded

/-- Mirrors `decodePayload`: normalize, split on `.`, require at least two
segments, base64url-normalize and decode the second segment, read it as
UTF-8 JSON. Each failing stage models the corresponding thrown exception. -/
def decodePayload (token : String) : Except String Json :=
  let normalized := normalizeToken token.data
  let segments := splitOnDot normalized
  match segments with
  | _ :: payloadSeg :: _ =>
    let payload := base64UrlToBase64 payloadSeg
    match decodeB64 payload with
    | none => .error "Failed to decode base64 payload."
    | some bytes =>
      match utf8Decode bytes with
      | none => .error "Failed to decode payload bytes."
      | some chars =>
        match jsonParse chars with
        | some parsed => .ok parsed
        | none => .error "Unexpected token in JSON."
  | _ => .error "Invalid JWT format."

/-- JS property read on a parsed JSON value: an object yields its
syntactically last binding of the key (later `JSON.parse` assignments
overwrite earlier ones); any non-object yields `undefined`. -/
def objGetLast : JsonObj → List Char → Option Json
  | .nil, _ => none
  | .cons k v fs, key =>
    match objGetLast fs key with
    | some r => some r
    | none => if k = key then some v else none

/-- Property access `payload[key]` on a decoded payload. -/
def getField : Json → List Char → Option Json
  | .obj fields, key => objGetLast fields key
  | _, _ => none

/-- Mirrors `getExp`: a decode failure (the `catch`) or a non-numeric `exp`
yields `null`; the integral model makes the `Number.isNaN` guard vacuous. -/
def getExp (token : String) : Option Int :=
  match decodePayload token with
  | .error _ => none
  | .ok payload =>
    match getField payload "exp".data with
    | some (.num n) => some n
    | _ => none

/-- `ONE_DAY_SECONDS` from the source. -/
def ONE_DAY_SECONDS : Int := 86400

/-- Mirrors `isValid`: the guard `if (!exp)` is JS falsiness, which holds
both when `getExp` returned `null` and when it returned the number `0`, so a
zero expiry short-circuits to `false`; otherwise the one-day margin check. -/
def isValid (token : String) (nowSeconds : Int) : Bool :=
  match getExp token with
  | none => false
  | some exp => if exp = 0 then false else decide (exp - nowSeconds > ONE_DAY_SECONDS)

/-- The fixed JWT header object `{"alg":"HS256","typ":"JWT"}` used when
building tokens (as the repository's own token-building test helper does). -/
def headerJson : Json :=
  .obj (.cons "alg".data (.str "HS256".data) (.cons "typ".data (.str "JWT".data) .nil))

/-- One base64url token segment: serialize, UTF-8 encode, base64url encode. -/
def encodeSegment (v : Json) : List Char :=
  encodeB64Url (utf8Encode (printJson v))

/-- A three-segment token `header.payload.signature` with an opaque signature
segment, as the repository's test helper `buildToken` constructs. -/
def buildToken (payload : Json) : String :=
  String.mk (encodeSegment headerJson ++ '.' :: encodeSegment payload ++ '.' :: "signature".data)

/-- A two-segment token `header.payload` without a signature segment. -/
def buildTokenNoSig (payload : Json) : String :=
  String.mk (encodeSegment headerJson ++ '.' :: encodeSegment payload)

end Jwt

/-! ## Character arithmetic helpers -/

/-- `Char.toNat` is injective. -/
theorem char_toNat_inj {c1 c2 : Char} (h : c1.toNat = c2.toNat) : c1 = c2 := by
  rw [← Char.ofNat_toNat c1, h, Char.ofNat_toNat]

/-- Characters with different codepoints differ. -/
theorem char_ne_of_toNat_ne {c1 c2 : Char} (h : c1.toNat ≠ c2.toNat) : c1 ≠ c2 :=
  fun he => h (he ▸ rfl)

/-! ## Claim C9 — cleanup idempotence -/

/-- C9. `cleanup` is idempotent: a second call returns the state unchanged
and performs the kill/removal body zero further times; on a fresh session the
body runs exactly once, closing the session, killing the process and removing
the profile directory. `cleanup` is a total function, so no call can raise. -/
theorem cleanup_idempotent :
    (∀ s : Login.SessionState, Login.cleanup (Login.cleanup s) = Login.cleanup s) ∧
    (∀ s : Login.SessionState,
      (Login.cleanup (Login.cleanup s)).cleanupRuns = (Login.cleanup s).cleanupRuns) ∧
    Login.cleanup Login.SessionState.initial =
      { closed := true, processKilled := true, profileDirRemoved := true, cleanupRuns := 1 } := by
  refine ⟨?_, ?_, rfl⟩
  · intro s
    unfold Login.cleanup
    by_cases h : s.closed <;> simp [h]
  · intro s
    unfold Login.cleanup
    by_cases h : s.closed <;> simp [h]

/-! ## Claim C1 — cleanup on the exit paths of `finish` -/

/-- C1 counterexample. On the debugger-endpoint timeout path, `finish`
returns with the session state untouched: the `closed` flag is still unset
and neither the process kill nor the profile-directory removal happened, so
cleanup is not triggered on every exit path. -/
theorem finish_timeout_skips_cleanup :
    Login.finish
        { waitForWsUrl := .error "Timed out waiting for Chrome DevTools endpoint."
          cdpMessage := fun _ => .error "unused" }
        Login.SessionState.initial =
      (.error "Timed out waiting for Chrome DevTools endpoint.", Login.SessionState.initial) ∧
    Login.SessionState.initial.closed = false ∧
    Login.SessionState.initial.processKilled = false ∧
    Login.SessionState.initial.profileDirRemoved = false :=
  ⟨rfl, rfl, rfl, rfl⟩

/-- C1 (amended). `finish` triggers cleanup before returning only on the
success path, where the session ends closed with the process killed and the
profile directory removed; when the debugger-endpoint wait or the cookie
extraction fails, the error propagates with the session state unchanged
(cleanup is not triggered there). -/
theorem finish_cleanup_only_on_success (env : Login.FinishEnv) (s : Login.SessionState) :
    (∀ e, env.waitForWsUrl = .error e → Login.finish env s = (.error e, s)) ∧
    (∀ ws, env.waitForWsUrl = .ok ws →
      (∀ e, Login.extractCookies env ws = .error e → Login.finish env s = (.error e, s)) ∧
      (∀ c, Login.extractCookies env ws = .ok c →
        Login.finish env s = (.ok c, Login.cleanup s) ∧
        (Login.finish env s).2.closed = true ∧
        (s.closed = false →
          (Login.finish env s).2.processKilled = true ∧
          (Login.finish env s).2.profileDirRemoved = true))) := by
  constructor
  · intro e he
    simp [Login.finish, he]
  · intro ws hws
    constructor
    · intro e he
      simp [Login.finish, hws, he]
    · intro c hc
      have hfin : Login.finish env s = (.ok c, Login.cleanup s) := by
        simp [Login.finish, hws, hc]
      refine ⟨hfin, ?_, ?_⟩
      · rw [hfin]
        unfold Login.cleanup
        by_cases h : s.closed <;> simp [h]
      · intro hnot
        rw [hfin]
        unfold Login.cleanup
        simp [hnot]

/-- C1 witness: a concrete successful capture run, where the control channel
returns the session cookie; `finish` returns the composite credential and the
cleaned-up state. -/
theorem finish_cleanup_only_on_success_witness :
    Login.sampleFinishEnv.waitForWsUrl = .ok "ws://127.0.0.1:9222/devtools" ∧
    Login.extractCookies Login.sampleFinishEnv "ws://127.0.0.1:9222/devtools" =
      .ok "WorkosCursorSessionToken=tok" ∧
    Login.SessionState.initial.closed = false ∧
    Login.finish Login.sampleFinishEnv Login.SessionState.initial =
      (.ok "WorkosCursorSessionToken=tok", Login.cleanup Login.SessionState.initial) ∧
    (Login.finish Login.sampleFinishEnv Login.SessionState.initial).2.closed = true ∧
    (Login.finish Login.sampleFinishEnv Login.SessionState.initial).2.processKilled = true := by
  have h := (finish_cleanup_only_on_success Login.sampleFinishEnv Login.SessionState.initial).2
    "ws://127.0.0.1:9222/devtools" rfl
  have h2 := h.2 "WorkosCursorSessionToken=tok" (by decide)
  exact ⟨rfl, by decide, rfl, h2.1, h2.2.1, (h2.2.2 rfl).1⟩

/-! ## Decimal digit lemmas (shared by the formatting and JSON claims) -/

/-- Every character produced by the digit printer is a decimal digit. -/
theorem natDigitsAux_digits : ∀ (fuel n : Nat), ∀ c ∈ Api.natDigitsAux fuel n,
    Jwt.isDigitChar c = true
  | 0, _ => by simp [Api.natDigitsAux]
  | Nat.succ fuel, n => by
    have hsmall : ∀ m < 10, Jwt.isDigitChar (Char.ofNat ('0'.toNat + m)) = true := by decide
    by_cases h : n < 10
    · simpa [Api.natDigitsAux, h] using hsmall n h
    · intro c hc
      simp only [Api.natDigitsAux, h, if_false, List.mem_append, List.mem_singleton] at hc
      rcases hc with hc | hc
      · exact natDigitsAux_digits fuel (n / 10) c hc
      · rw [hc]
        exact hsmall (n % 10) (Nat.mod_lt _ (by omega))

/-- The digit printer never returns the empty list (for positive fuel). -/
theorem natDigits_ne_nil (n : Nat) : Api.natDigits n ≠ [] := by
  unfold Api.natDigits Api.natDigitsAux
  by_cases h : n < 10 <;> simp [h]

/-- A decimal digit is not a comma. -/
theorem isDigitChar_ne_comma {c : Char} (h : Jwt.isDigitChar c = true) : c ≠ ',' := by
  intro he
  rw [he] at h
  exact absurd h (by decide)

/-- Removing the commas that `groupAux` inserted recovers the original
digit string. -/
theorem groupAux_filter : ∀ l : List Char, (∀ c ∈ l, c ≠ ',') →
    (Api.groupAux l).filter (fun c => c != ',') = l
  | [], _ => by simp [Api.groupAux]
  | [d1], h => by
    have h1 : (d1 != ',') = true := bne_iff_ne.mpr (h d1 (by simp))
    simp [Api.groupAux, List.filter, h1]
  | [d1, d2], h => by
    have h1 : (d1 != ',') = true := bne_iff_ne.mpr (h d1 (by simp))
    have h2 : (d2 != ',') = true := bne_iff_ne.mpr (h d2 (by simp))
    simp [Api.groupAux, List.filter, h1, h2]
  | [d1, d2, d3], h => by
    have h1 : (d1 != ',') = true := bne_iff_ne.mpr (h d1 (by simp))
    have h2 : (d2 != ',') = true := bne_iff_ne.mpr (h d2 (by simp))
    have h3 : (d3 != ',') = true := bne_iff_ne.mpr (h d3 (by simp))
    simp [Api.groupAux, List.filter, h1, h2, h3]
  | d1 :: d2 :: d3 :: r :: rs, h => by
    have hrec := groupAux_filter (r :: rs) fun c hc => h c (by simp at hc ⊢; tauto)
    have h1 : (d1 != ',') = true := bne_iff_ne.mpr (h d1 (by simp))
    have h2 : (d2 != ',') = true := bne_iff_ne.mpr (h d2 (by simp))
    have h3 : (d3 != ',') = true := bne_iff_ne.mpr (h d3 (by simp))
    have hc : ((',' : Char) != ',') = false := by decide
    simp only [Api.groupAux, List.filter, h1, h2, h3, hc]
    simp only [List.filter] at hrec
    rw [hrec]

/-- Removing the commas from `groupDigits ds` recovers `ds` when `ds` has no
comma. -/
theorem groupDigits_filter (ds : List Char) (h : ∀ c ∈ ds, c ≠ ',') :
    (Api.groupDigits ds).filter (fun c => c != ',') = ds := by
  unfold Api.groupDigits
  rw [List.filter_reverse, groupAux_filter ds.reverse (by simpa using fun c hc => h c hc),
    List.reverse_reverse]

/-- For positive fuel and a one-digit value the printer yields one digit. -/
theorem natDigitsAux_small (fuel n : Nat) (h : n < 10) :
    Api.natDigitsAux (fuel + 1) n = [Char.ofNat ('0'.toNat + n)] := by
  simp [Api.natDigitsAux, h]

/-- The fraction part of `formatSpend` always has exactly two digits. -/
theorem twoDigits_length (n : Nat) (h : n < 100) : (Api.twoDigits n).length = 2 := by
  unfold Api.twoDigits
  by_cases h10 : n < 10
  · simp [h10, Api.natDigits, natDigitsAux_small n n h10]
  · obtain ⟨m, rfl⟩ : ∃ m, n = m + 1 := ⟨n - 1, by omega⟩
    rw [if_neg h10]
    unfold Api.natDigits
    rw [show m + 1 + 1 = (m + 1) + 1 from rfl]
    unfold Api.natDigitsAux
    rw [if_neg h10, natDigitsAux_small m ((m + 1) / 10) (by omega)]
    simp

/-! ## Claim C8 — formatSpend rendering -/

/-- C8. `formatSpend` renders minor units with a leading dollar sign and
space, en-US thousands grouping and exactly two decimal places:
`formatSpend 132012 = "$ 1,320.12"`, `formatSpend 0 = "$ 0.00"`, and in
general for non-negative cents the result is dollar marker, grouped integer
dollars (removing the inserted commas recovers the plain decimal digits of
`cents / 100`), a dot, and a two-character fraction. -/
theorem formatSpend_spec :
    Api.formatSpend 132012 = "$ 1,320.12" ∧
    Api.formatSpend 0 = "$ 0.00" ∧
    ∀ cents : Nat,
      Api.formatSpend (cents : Int) =
        "$ " ++ String.mk (Api.groupDigits (Api.natDigits (cents / 100))) ++ "." ++
          String.mk (Api.twoDigits (cents % 100)) ∧
      (Api.groupDigits (Api.natDigits (cents / 100))).filter (fun c => c != ',') =
        Api.natDigits (cents / 100) ∧
      (Api.twoDigits (cents % 100)).length = 2 := by
  refine ⟨by decide, by decide, ?_⟩
  intro cents
  refine ⟨?_, ?_, twoDigits_length _ (Nat.mod_lt _ (by omega))⟩
  · unfold Api.formatSpend
    have hneg : ¬((cents : Int) < 0) := by omega
    rw [if_neg hneg]
    have habs : (cents : Int).natAbs = cents := Int.natAbs_ofNat cents
    rw [habs]
    rfl
  · exact groupDigits_filter _ fun c hc =>
      isDigitChar_ne_comma (natDigitsAux_digits _ _ c hc)

/-! ## Fetch orchestrator lemmas -/

/-- Reduction of `fetchUsageData` to `fetchNetwork` on a validated team id
and a cache miss. -/
theorem fetchUsageData_network (teamId cookieString : String) (now : Int)
    (cache : Option Api.CacheEntry) (env : Api.ApiEnv) (n : Int)
    (hparse : parseIntJS teamId = some n) (hpos : 0 < n)
    (hmiss : ∀ entry, cache = some entry →
      ¬(entry.key = toString n ++ ":" ++ cookieString ∧ entry.expiresAt > now)) :
    Api.fetchUsageData teamId cookieString now cache env =
      Api.fetchNetwork n (toString n ++ ":" ++ cookieString) now cache env := by
  unfold Api.fetchUsageData
  rw [hparse]
  simp only [if_neg (by omega : ¬ n ≤ 0)]
  cases cache with
  | none => rfl
  | some entry => simp only [if_neg (hmiss entry rfl)]

/-- On a successful identity call, `fetchNetwork` returns some snapshot,
writes it to the cache with a ten-second expiry under the given key, and
performs the events call exactly when the identity reply has a numeric id. -/
theorem fetchNetwork_ok (n : Int) (key : String) (now : Int)
    (cache : Option Api.CacheEntry) (env : Api.ApiEnv) (a : Api.AuthMeResponse)
    (hok : env.authMe = .ok a) :
    ∃ u, Api.fetchNetwork n key now cache env =
      { outcome := .ok u
        cache := some { key := key, expiresAt := now + Api.CACHE_TTL_MS, value := u }
        calls := [.authMe, .usageSummary] ++ (if a.id.isSome then [.usageEvents] else []) } := by
  simp only [Api.fetchNetwork, hok]
  exact ⟨_, rfl⟩

/-- Reduction of `fetchUsageData` on a fresh matching cache entry: the cached
snapshot is returned and no network call happens. -/
theorem fetchUsageData_cache_hit (teamId cookieString : String) (now : Int)
    (cache : Option Api.CacheEntry) (env : Api.ApiEnv) (n : Int) (entry : Api.CacheEntry)
    (hparse : parseIntJS teamId = some n) (hpos : 0 < n)
    (hcache : cache = some entry)
    (hkey : entry.key = toString n ++ ":" ++ cookieString)
    (hexp : entry.expiresAt > now) :
    Api.fetchUsageData teamId cookieString now cache env =
      { outcome := .ok entry.value, cache := cache, calls := [] } := by
  unfold Api.fetchUsageData
  rw [hparse]
  simp only [if_neg (by omega : ¬ n ≤ 0)]
  subst hcache
  change (if entry.key = toString n ++ ":" ++ cookieString ∧ entry.expiresAt > now
    then _ else _) = _
  rw [if_pos ⟨hkey, hexp⟩]

/-! ## Claim C3 — identity failure is terminal and cache-preserving -/

/-- C3. When the team id validates, the cache does not serve the call, and
the identity endpoint fails, `fetchUsageData` throws the propagated upstream
error, performs only the identity call, and returns with the cache slot
exactly as it was (no entry written, no entry evicted). -/
theorem fetchUsageData_authMe_failure_preserves_cache
    (teamId cookieString : String) (now : Int) (cache : Option Api.CacheEntry)
    (env : Api.ApiEnv) (n : Int) (e : String)
    (hparse : parseIntJS teamId = some n) (hpos : 0 < n)
    (hmiss : ∀ entry, cache = some entry →
      ¬(entry.key = toString n ++ ":" ++ cookieString ∧ entry.expiresAt > now))
    (herr : env.authMe = .error e) :
    Api.fetchUsageData teamId cookieString now cache env =
      { outcome := .error (.upstream e), cache := cache, calls := [.authMe] } := by
  rw [fetchUsageData_network teamId cookieString now cache env n hparse hpos hmiss]
  simp only [Api.fetchNetwork, herr]

/-- C3 witness: a concrete failing identity call with a pre-existing expired
cache entry; the entry survives untouched and the error is the upstream one. -/
theorem fetchUsageData_authMe_failure_preserves_cache_witness :
    parseIntJS "1" = some 1 ∧ (0 : Int) < 1 ∧
    (∀ entry, (some (Api.CacheEntry.mk "1:c" 0
          (Api.UsageData.mk "old@x" "$ 0.00" "$ 0.00" none none none)) = some entry) →
      ¬(entry.key = toString (1 : Int) ++ ":" ++ "c" ∧ entry.expiresAt > (5 : Int))) ∧
    Api.fetchUsageData "1" "c" 5
        (some (Api.CacheEntry.mk "1:c" 0 (Api.UsageData.mk "old@x" "$ 0.00" "$ 0.00" none none none)))
        (Api.ApiEnv.mk (.error "identity down") (.error "s") (fun _ _ _ => .error "e")
          (fun _ => none) (fun _ => "")) =
      { outcome := .error (.upstream "identity down")
        cache := some (Api.CacheEntry.mk "1:c" 0
          (Api.UsageData.mk "old@x" "$ 0.00" "$ 0.00" none none none))
        calls := [.authMe] } := by
  refine ⟨by decide, by decide, ?_, ?_⟩
  · intro entry he
    cases Option.some.inj he
    decide
  · exact fetchUsageData_authMe_failure_preserves_cache "1" "c" 5 _ _ 1 "identity down"
      (by decide) (by decide)
      (fun entry he => by cases Option.some.inj he; decide) rfl

/-! ## Claim C4 — ten-second cache throttle -/

/-- C4. After a first successful fetch at time `t` (validated team id, cache
miss, identity call succeeds), a second fetch with the same team id and
credential at any time `tNext` strictly before `t + 10s` performs no network
calls, leaves the cache slot as the first call wrote it, and returns the
identical snapshot. -/
theorem fetchUsageData_cache_hit_within_ttl
    (teamId cookieString : String) (t tNext : Int) (cache0 : Option Api.CacheEntry)
    (env env2 : Api.ApiEnv) (n : Int) (a : Api.AuthMeResponse)
    (hparse : parseIntJS teamId = some n) (hpos : 0 < n)
    (hmiss : ∀ entry, cache0 = some entry →
      ¬(entry.key = toString n ++ ":" ++ cookieString ∧ entry.expiresAt > t))
    (hok : env.authMe = .ok a)
    (hlt : tNext < t + Api.CACHE_TTL_MS) :
    ∃ u : Api.UsageData,
      (Api.fetchUsageData teamId cookieString t cache0 env).outcome = .ok u ∧
      Api.fetchUsageData teamId cookieString tNext
          (Api.fetchUsageData teamId cookieString t cache0 env).cache env2 =
        { outcome := .ok u
          cache := (Api.fetchUsageData teamId cookieString t cache0 env).cache
          calls := [] } := by
  rw [fetchUsageData_network teamId cookieString t cache0 env n hparse hpos hmiss]
  obtain ⟨u, hu⟩ := fetchNetwork_ok n (toString n ++ ":" ++ cookieString) t cache0 env a hok
  refine ⟨u, by rw [hu], ?_⟩
  rw [hu]
  exact fetchUsageData_cache_hit teamId cookieString tNext _ env2 n _ hparse hpos rfl rfl
    (by simpa using hlt)

/-- C4 witness: two concrete fetches nine seconds apart; the second returns
the first snapshot with an empty network-call list. -/
theorem fetchUsageData_cache_hit_within_ttl_witness :
    parseIntJS "2" = some 2 ∧
    (Api.ApiEnv.mk (.ok (Api.AuthMeResponse.mk (some "u@x") (some 9) none none))
        (.error "s") (fun _ _ _ => .error "e") (fun _ => none) (fun _ => "")).authMe =
      .ok (Api.AuthMeResponse.mk (some "u@x") (some 9) none none) ∧
    (9000 : Int) < 0 + Api.CACHE_TTL_MS ∧
    ∃ u : Api.UsageData,
      (Api.fetchUsageData "2" "c" 0 none
          (Api.ApiEnv.mk (.ok (Api.AuthMeResponse.mk (some "u@x") (some 9) none none))
            (.error "s") (fun _ _ _ => .error "e") (fun _ => none) (fun _ => ""))).outcome =
        .ok u ∧
      Api.fetchUsageData "2" "c" 9000
          (Api.fetchUsageData "2" "c" 0 none
            (Api.ApiEnv.mk (.ok (Api.AuthMeResponse.mk (some "u@x") (some 9) none none))
              (.error "s") (fun _ _ _ => .error "e") (fun _ => none) (fun _ => ""))).cache
          (Api.ApiEnv.mk (.error "down") (.error "down") (fun _ _ _ => .error "down")
            (fun _ => none) (fun _ => "")) =
        { outcome := .ok u
          cache := (Api.fetchUsageData "2" "c" 0 none
            (Api.ApiEnv.mk (.ok (Api.AuthMeResponse.mk (some "u@x") (some 9) none none))
              (.error "s") (fun _ _ _ => .error "e") (fun _ => none) (fun _ => ""))).cache
          calls := [] } := by
  refine ⟨by decide, rfl, by decide, ?_⟩
  exact fetchUsageData_cache_hit_within_ttl "2" "c" 0 9000 none _ _ 2 _
    (by decide) (by decide) (fun entry he => by cases he) rfl (by decide)

/-! ## Claim C5 — tolerated usage-summary failure -/

/-- C5. When the usage-summary call fails while identity and usage-events
succeed, the fetch still succeeds and caches a snapshot whose email is the
identity email, whose today figure is the formatted event-cost sum, whose
month-to-date figure defaults to the formatted zero `"$ 0.00"`, and whose
billing-cycle dates and days-until-cycle-end are absent. -/
theorem fetchUsageData_summary_failure_degrades
    (teamId cookieString : String) (now : Int) (cache : Option Api.CacheEntry)
    (env : Api.ApiEnv) (n uid : Int) (a : Api.AuthMeResponse) (em es : String)
    (ev : Api.FilteredUsageEventsResponse)
    (hparse : parseIntJS teamId = some n) (hpos : 0 < n)
    (hmiss : ∀ entry, cache = some entry →
      ¬(entry.key = toString n ++ ":" ++ cookieString ∧ entry.expiresAt > now))
    (hok : env.authMe = .ok a) (hemail : a.email = some em) (hid : a.id = some uid)
    (hsum : env.usageSummary = .error es)
    (hev : env.usageEvents n uid now = .ok ev) :
    ∃ u : Api.UsageData,
      Api.fetchUsageData teamId cookieString now cache env =
        { outcome := .ok u
          cache := some { key := toString n ++ ":" ++ cookieString
                          expiresAt := now + Api.CACHE_TTL_MS
                          value := u }
          calls := [.authMe, .usageSummary, .usageEvents] } ∧
      u.userEmail = em ∧
      u.todaySpendFormatted = Api.formatSpend (Api.sumTodaySpendCents ev) ∧
      u.mtdSpendFormatted = Api.formatSpend 0 ∧
      u.mtdSpendFormatted = "$ 0.00" ∧
      u.cycleStartDate = none ∧ u.cycleEndDate = none ∧ u.daysUntilCycleEnd = none := by
  rw [fetchUsageData_network teamId cookieString now cache env n hparse hpos hmiss]
  simp only [Api.fetchNetwork, hok, hid, hsum, hev]
  exact ⟨_, rfl, by rw [hemail]; rfl, rfl, rfl,
    (by decide : Api.formatSpend 0 = "$ 0.00"), rfl, rfl, rfl⟩

/-- C5 witness: a concrete run against `sampleEnvSummaryDown`. -/
theorem fetchUsageData_summary_failure_degrades_witness :
    parseIntJS "3" = some 3 ∧
    Api.sampleEnvSummaryDown.authMe = .ok Api.sampleAuthMe ∧
    Api.sampleAuthMe.email = some "user@example.com" ∧
    Api.sampleAuthMe.id = some 7 ∧
    Api.sampleEnvSummaryDown.usageSummary = .error "summary down" ∧
    Api.sampleEnvSummaryDown.usageEvents 3 7 50 = .ok Api.sampleEventsResponse ∧
    ∃ u : Api.UsageData,
      Api.fetchUsageData "3" "c" 50 none Api.sampleEnvSummaryDown =
        { outcome := .ok u
          cache := some { key := "3:c", expiresAt := 50 + Api.CACHE_TTL_MS, value := u }
          calls := [.authMe, .usageSummary, .usageEvents] } ∧
      u.userEmail = "user@example.com" ∧
      u.todaySpendFormatted = Api.formatSpend (Api.sumTodaySpendCents Api.sampleEventsResponse) ∧
      u.mtdSpendFormatted = Api.formatSpend 0 ∧
      u.mtdSpendFormatted = "$ 0.00" ∧
      u.cycleStartDate = none ∧ u.cycleEndDate = none ∧ u.daysUntilCycleEnd = none := by
  refine ⟨by decide, rfl, rfl, rfl, rfl, rfl, ?_⟩
  exact fetchUsageData_summary_failure_degrades "3" "c" 50 none Api.sampleEnvSummaryDown
    3 7 Api.sampleAuthMe "user@example.com" "summary down" Api.sampleEventsResponse
    (by decide) (by decide) (fun entry he => by cases he) rfl rfl rfl rfl rfl

/-! ## Claim C6 — team-id validation -/

/-- `fetchNetwork` never throws the invalid-team-id error. -/
theorem fetchNetwork_outcome_not_invalid (n : Int) (key : String) (now : Int)
    (cache : Option Api.CacheEntry) (env : Api.ApiEnv) :
    (Api.fetchNetwork n key now cache env).outcome ≠ .error .invalidTeamId := by
  unfold Api.fetchNetwork
  cases h : env.authMe with
  | error e => simp
  | ok a => simp

/-- C6. `fetchUsageData` fails with the invalid-team-id error exactly when
the team id does not parse as a positive integer under JS `parseInt`
semantics (no leading digits at all, or a non-positive parsed value); every
other outcome — cache hit, upstream failure, success — is a different
constructor. -/
theorem fetchUsageData_invalid_team_id_iff (teamId cookieString : String) (now : Int)
    (cache : Option Api.CacheEntry) (env : Api.ApiEnv) :
    (Api.fetchUsageData teamId cookieString now cache env).outcome = .error .invalidTeamId ↔
      (parseIntJS teamId = none ∨ ∃ n, parseIntJS teamId = some n ∧ n ≤ 0) := by
  unfold Api.fetchUsageData
  rcases hp : parseIntJS teamId with _ | n
  · simp
  · simp only [Option.some.injEq]
    by_cases hn : n ≤ 0
    · simp only [if_pos hn]
      exact iff_of_true trivial (Or.inr ⟨n, rfl, hn⟩)
    · simp only [if_neg hn]
      constructor
      · intro h
        exfalso
        cases cache with
        | none => exact fetchNetwork_outcome_not_invalid _ _ _ _ _ h
        | some entry =>
          by_cases hc : entry.key = toString n ++ ":" ++ cookieString ∧ entry.expiresAt > now
          · simp only [if_pos hc] at h
            cases h
          · simp only [if_neg hc] at h
            exact fetchNetwork_outcome_not_invalid _ _ _ _ _ h
      · rintro (h | ⟨m, hm, hm2⟩)
        · cases h
        · cases hm
          omega

/-! ## Claim C10 — missing numeric user id degrades only the events call -/

/-- C10. When the identity call succeeds but carries no numeric id, the
usage-events request is not issued at all, the snapshot reports today's
spend as `"$ 0.00"`, and the fetch still succeeds and caches the snapshot. -/
theorem fetchUsageData_missing_user_id
    (teamId cookieString : String) (now : Int) (cache : Option Api.CacheEntry)
    (env : Api.ApiEnv) (n : Int) (a : Api.AuthMeResponse)
    (hparse : parseIntJS teamId = some n) (hpos : 0 < n)
    (hmiss : ∀ entry, cache = some entry →
      ¬(entry.key = toString n ++ ":" ++ cookieString ∧ entry.expiresAt > now))
    (hok : env.authMe = .ok a) (hid : a.id = none) :
    ∃ u : Api.UsageData,
      Api.fetchUsageData teamId cookieString now cache env =
        { outcome := .ok u
          cache := some { key := toString n ++ ":" ++ cookieString
                          expiresAt := now + Api.CACHE_TTL_MS
                          value := u }
          calls := [.authMe, .usageSummary] } ∧
      u.todaySpendFormatted = "$ 0.00" ∧
      Api.NetCall.usageEvents ∉ (Api.fetchUsageData teamId cookieString now cache env).calls := by
  rw [fetchUsageData_network teamId cookieString now cache env n hparse hpos hmiss]
  simp only [Api.fetchNetwork, hok, hid]
  exact ⟨_, rfl, (by decide : Api.formatSpend 0 = "$ 0.00"),
    (by decide : Api.NetCall.usageEvents ∉
      ([Api.NetCall.authMe, Api.NetCall.usageSummary] ++ ([] : List Api.NetCall)))⟩

/-- C10 witness: a concrete run against `sampleEnvNoId`. -/
theorem fetchUsageData_missing_user_id_witness :
    parseIntJS "4" = some 4 ∧
    Api.sampleEnvNoId.authMe = .ok Api.sampleAuthMeNoId ∧
    Api.sampleAuthMeNoId.id = none ∧
    ∃ u : Api.UsageData,
      Api.fetchUsageData "4" "c" 80 none Api.sampleEnvNoId =
        { outcome := .ok u
          cache := some { key := "4:c", expiresAt := 80 + Api.CACHE_TTL_MS, value := u }
          calls := [.authMe, .usageSummary] } ∧
      u.todaySpendFormatted = "$ 0.00" ∧
      Api.NetCall.usageEvents ∉ (Api.fetchUsageData "4" "c" 80 none Api.sampleEnvNoId).calls := by
  refine ⟨by decide, rfl, rfl, ?_⟩
  exact fetchUsageData_missing_user_id "4" "c" 80 none Api.sampleEnvNoId 4 Api.sampleAuthMeNoId
    (by decide) (by decide) (fun entry he => by cases he) rfl rfl

/-! ## Claim C2 — token validity margin -/

/-- C2 counterexample. A well-formed token whose numeric `exp` claim is `0`:
at `now = -86401` the margin `exp - now = 86401 > 86400` holds, yet
`isValid` returns `false`, because the JS guard `if (!exp)` treats the
number `0` as falsy. So `isValid` is not `true` exactly when
`exp - now > 86400`. -/
theorem isValid_zero_exp_counterexample :
    Jwt.getExp (Jwt.buildToken (.obj (.cons "exp".data (.num 0) .nil))) = some 0 ∧
    ((0 : Int) - (-86401) > Jwt.ONE_DAY_SECONDS) ∧
    Jwt.isValid (Jwt.buildToken (.obj (.cons "exp".data (.num 0) .nil))) (-86401) = false := by
  refine ⟨by decide, by decide, by decide⟩

/-- C2 (amended). For every token whose payload decodes with a numeric `exp`
claim and every integer `now`: `isValid token now` is `true` iff `exp ≠ 0`
and `exp - now > 86400` (an `exp` of exactly `0` is treated like an absent
expiry by the falsy guard); at the boundary `exp - now = 86400` the result is
`false`; and any token with an absent or non-numeric expiry yields `false`. -/
theorem isValid_iff_margin_amended (token : String) (now : Int) (payload : Jwt.Json) (e : Int)
    (hdec : Jwt.decodePayload token = .ok payload)
    (hexp : Jwt.getField payload "exp".data = some (.num e)) :
    (Jwt.isValid token now = true ↔ (e ≠ 0 ∧ e - now > Jwt.ONE_DAY_SECONDS)) ∧
    (e - now = Jwt.ONE_DAY_SECONDS → Jwt.isValid token now = false) ∧
    (∀ tok2 now2, Jwt.getExp tok2 = none → Jwt.isValid tok2 now2 = false) := by
  have hge : Jwt.getExp token = some e := by
    simp only [Jwt.getExp, hdec, hexp]
  refine ⟨?_, ?_, ?_⟩
  · unfold Jwt.isValid
    rw [hge]
    by_cases h0 : e = 0
    · simp [h0]
    · simp [h0]
  · intro hb
    unfold Jwt.isValid
    rw [hge]
    by_cases h0 : e = 0
    · simp [h0]
    · simp [h0]
      omega
  · intro tok2 now2 hnone
    unfold Jwt.isValid
    rw [hnone]

/-- C2 witness: a concrete token with `exp = 90000` checked at
`now = 3599` (margin `86401`, so valid) — the amended equivalence applied at
a concrete well-formed token. -/
theorem isValid_iff_margin_amended_witness :
    Jwt.decodePayload (Jwt.buildToken (.obj (.cons "exp".data (.num 90000) .nil))) =
      .ok (.obj (.cons "exp".data (.num 90000) .nil)) ∧
    Jwt.getField (.obj (.cons "exp".data (.num 90000) .nil)) "exp".data =
      some (.num 90000) ∧
    ((Jwt.isValid (Jwt.buildToken (.obj (.cons "exp".data (.num 90000) .nil))) 3599 = true ↔
        ((90000 : Int) ≠ 0 ∧ (90000 : Int) - 3599 > Jwt.ONE_DAY_SECONDS)) ∧
      ((90000 : Int) - 3599 = Jwt.ONE_DAY_SECONDS →
        Jwt.isValid (Jwt.buildToken (.obj (.cons "exp".data (.num 90000) .nil))) 3599 = false) ∧
      (∀ tok2 now2, Jwt.getExp tok2 = none → Jwt.isValid tok2 now2 = false)) := by
  refine ⟨rfl, rfl, ?_⟩
  exact isValid_iff_margin_amended _ 3599 _ 90000 rfl rfl

/-! ## UTF-8 round trip -/

/-- Unicode scalar values are below `0x110000`. -/
theorem char_toNat_lt (c : Char) : c.toNat < 1114112 := by
  rcases c.valid with h | ⟨_, h2⟩
  · exact Nat.lt_trans h (by decide)
  · exact h2

/-- UTF-8 encoding produces bytes. -/
theorem utf8EncodeChar_lt (c : Char) : ∀ b ∈ Jwt.utf8EncodeChar c, b < 256 := by
  have hv := char_toNat_lt c
  unfold Jwt.utf8EncodeChar
  by_cases h1 : c.toNat < 128
  · simp only [if_pos h1]
    intro b hb
    simp at hb
    omega
  · by_cases h2 : c.toNat < 2048
    · simp only [if_neg h1, if_pos h2]
      intro b hb
      simp at hb
      rcases hb with hb | hb <;> omega
    · by_cases h3 : c.toNat < 65536
      · simp only [if_neg h1, if_neg h2, if_pos h3]
        intro b hb
        simp at hb
        rcases hb with hb | hb | hb <;> omega
      · simp only [if_neg h1, if_neg h2, if_neg h3]
        intro b hb
        simp at hb
        rcases hb with hb | hb | hb | hb <;> omega

/-- UTF-8 encoding of a string produces bytes. -/
theorem utf8Encode_lt : ∀ s : List Char, ∀ b ∈ Jwt.utf8Encode s, b < 256
  | [] => by simp [Jwt.utf8Encode]
  | c :: cs => by
    intro b hb
    simp only [Jwt.utf8Encode, List.mem_append] at hb
    rcases hb with hb | hb
    · exact utf8EncodeChar_lt c b hb
    · exact utf8Encode_lt cs b hb

/-- UTF-8 decoding inverts UTF-8 encoding. -/
theorem utf8Decode_encode : ∀ s : List Char, Jwt.utf8Decode (Jwt.utf8Encode s) = some s
  | [] => rfl
  | c :: cs => by
    have hv := char_toNat_lt c
    have ih := utf8Decode_encode cs
    show Jwt.utf8Decode (Jwt.utf8EncodeChar c ++ Jwt.utf8Encode cs) = some (c :: cs)
    unfold Jwt.utf8EncodeChar
    by_cases h1 : c.toNat < 128
    · simp only [if_pos h1, List.cons_append, List.nil_append]
      unfold Jwt.utf8Decode
      rw [if_pos h1, ih]
      simp [Char.ofNat_toNat]
    · by_cases h2 : c.toNat < 2048
      · simp only [if_neg h1, if_pos h2, List.cons_append, List.nil_append]
        unfold Jwt.utf8Decode
        rw [if_neg (by omega), if_neg (by omega), if_pos (by omega)]
        unfold Jwt.utf8DecodeCont1
        rw [if_pos (by constructor <;> omega), ih]
        have harith : c.toNat / 64 * 64 + c.toNat % 64 = c.toNat := by omega
        simp [harith, Char.ofNat_toNat]
      · by_cases h3 : c.toNat < 65536
        · simp only [if_neg h1, if_neg h2, if_pos h3, List.cons_append, List.nil_append]
          unfold Jwt.utf8Decode
          rw [if_neg (by omega), if_neg (by omega), if_neg (by omega), if_pos (by omega)]
          unfold Jwt.utf8DecodeCont2
          rw [if_pos (by constructor <;> omega)]
          unfold Jwt.utf8DecodeCont1
          rw [if_pos (by constructor <;> omega), ih]
          have harith : (c.toNat / 4096 * 64 + c.toNat / 64 % 64) * 64 + c.toNat % 64 = c.toNat := by
            omega
          simp [harith, Char.ofNat_toNat]
        · simp only [if_neg h1, if_neg h2, if_neg h3, List.cons_append, List.nil_append]
          unfold Jwt.utf8Decode
          rw [if_neg (by omega), if_neg (by omega), if_neg (by omega), if_neg (by omega),
            if_pos (by omega)]
          unfold Jwt.utf8DecodeCont3
          rw [if_pos (by constructor <;> omega)]
          unfold Jwt.utf8DecodeCont2
          rw [if_pos (by constructor <;> omega)]
          unfold Jwt.utf8DecodeCont1
          rw [if_pos (by constructor <;> omega), ih]
          have harith : ((c.toNat / 262144 * 64 + c.toNat / 4096 % 64) * 64 + c.toNat / 64 % 64) * 64 +
              c.toNat % 64 = c.toNat := by
            omega
          simp [harith, Char.ofNat_toNat]

/-! ## Base64 round trip -/

/-- Decoding after alphabet translation inverts sextet encoding. -/
theorem b64Val_roundtrip : ∀ k < 64, Jwt.b64Val (Jwt.b64UrlToStd (Jwt.b64Char k)) = some k := by
  decide

/-- Translated base64url characters are never padding. -/
theorem b64UrlToStd_ne_pad : ∀ k < 64, Jwt.b64UrlToStd (Jwt.b64Char k) ≠ '=' := by
  decide

/-- Base64url characters are never a dot, percent or colon. -/
theorem b64Char_ne : ∀ k < 64,
    Jwt.b64Char k ≠ '.' ∧ Jwt.b64Char k ≠ '%' ∧ Jwt.b64Char k ≠ ':' := by
  decide

/-- `base64UrlToBase64` distributes over a leading block of four characters
(the padding depends only on the total length modulo four). -/
theorem b64u_append4 (a b : List Char) (ha : a.length % 4 = 0) :
    Jwt.base64UrlToBase64 (a ++ b) = a.map Jwt.b64UrlToStd ++ Jwt.base64UrlToBase64 b := by
  unfold Jwt.base64UrlToBase64
  simp only [List.map_append, List.length_append, List.length_map, List.append_assoc]
  have hlen : (a.length + b.length) % 4 = b.length % 4 := by omega
  rw [hlen]

/-- Base64 decoding inverts base64url encoding plus padding normalization on
byte input. -/
theorem b64_roundtrip : ∀ bs : List Nat, (∀ b ∈ bs, b < 256) →
    Jwt.decodeB64 (Jwt.base64UrlToBase64 (Jwt.encodeB64Url bs)) = some bs
  | [], _ => rfl
  | [b1], h => by
    have hb1 : b1 < 256 := h b1 (by simp)
    show Jwt.decodeB64 (Jwt.b64UrlToStd (Jwt.b64Char (b1 / 4)) ::
      Jwt.b64UrlToStd (Jwt.b64Char (b1 % 4 * 16)) :: '=' :: '=' :: []) = some [b1]
    have v1 := b64Val_roundtrip (b1 / 4) (by omega)
    have v2 := b64Val_roundtrip (b1 % 4 * 16) (by omega)
    simp only [Jwt.decodeB64, v1, v2, eq_self_iff_true, and_self, if_true,
      Option.some.injEq, List.cons.injEq, and_true]
    omega
  | [b1, b2], h => by
    have hb1 : b1 < 256 := h b1 (by simp)
    have hb2 : b2 < 256 := h b2 (by simp)
    show Jwt.decodeB64 (Jwt.b64UrlToStd (Jwt.b64Char (b1 / 4)) ::
      Jwt.b64UrlToStd (Jwt.b64Char (b1 % 4 * 16 + b2 / 16)) ::
      Jwt.b64UrlToStd (Jwt.b64Char (b2 % 16 * 4)) :: '=' :: []) = some [b1, b2]
    have v1 := b64Val_roundtrip (b1 / 4) (by omega)
    have v2 := b64Val_roundtrip (b1 % 4 * 16 + b2 / 16) (by omega)
    have v3 := b64Val_roundtrip (b2 % 16 * 4) (by omega)
    simp only [Jwt.decodeB64, v1, v2, v3,
      if_neg (b64UrlToStd_ne_pad (b2 % 16 * 4) (by omega)), eq_self_iff_true, if_true,
      Option.some.injEq, List.cons.injEq, and_true]
    constructor
    · omega
    · omega
  | b1 :: b2 :: b3 :: rest, h => by
    have hb1 : b1 < 256 := h b1 (by simp)
    have hb2 : b2 < 256 := h b2 (by simp)
    have hb3 : b3 < 256 := h b3 (by simp)
    have ih := b64_roundtrip rest fun b hb => h b (by simp [hb])
    show Jwt.decodeB64 (Jwt.base64UrlToBase64
      ([Jwt.b64Char (b1 / 4), Jwt.b64Char (b1 % 4 * 16 + b2 / 16),
        Jwt.b64Char (b2 % 16 * 4 + b3 / 64), Jwt.b64Char (b3 % 64)] ++
        Jwt.encodeB64Url rest)) = some (b1 :: b2 :: b3 :: rest)
    rw [b64u_append4 _ _ (by simp)]
    simp only [List.map_cons, List.map_nil]
    show Jwt.decodeB64 (Jwt.b64UrlToStd (Jwt.b64Char (b1 / 4)) ::
      Jwt.b64UrlToStd (Jwt.b64Char (b1 % 4 * 16 + b2 / 16)) ::
      Jwt.b64UrlToStd (Jwt.b64Char (b2 % 16 * 4 + b3 / 64)) ::
      Jwt.b64UrlToStd (Jwt.b64Char (b3 % 64)) ::
      Jwt.base64UrlToBase64 (Jwt.encodeB64Url rest)) = some (b1 :: b2 :: b3 :: rest)
    have v1 := b64Val_roundtrip (b1 / 4) (by omega)
    have v2 := b64Val_roundtrip (b1 % 4 * 16 + b2 / 16) (by omega)
    have v3 := b64Val_roundtrip (b2 % 16 * 4 + b3 / 64) (by omega)
    have v4 := b64Val_roundtrip (b3 % 64) (by omega)
    simp only [Jwt.decodeB64, v1, v2, v3, v4,
      if_neg (b64UrlToStd_ne_pad (b2 % 16 * 4 + b3 / 64) (by omega)),
      if_neg (b64UrlToStd_ne_pad (b3 % 64) (by omega)), ih,
      Option.map_some', Option.some.injEq, List.cons.injEq, eq_self_iff_true, and_true]
    refine ⟨by omega, by omega, by omega⟩

/-! ## Decimal number round trip -/

/-- Codepoint of a printed decimal digit. -/
theorem digitChar_toNat : ∀ m < 10, (Char.ofNat ('0'.toNat + m)).toNat = '0'.toNat + m := by
  decide

/-- Folding the digit-accumulation step over a printed number extends the
accumulator positionally and adds the printed value. -/
theorem natDigitsAux_foldl : ∀ (fuel n acc : Nat), n < fuel →
    (Api.natDigitsAux fuel n).foldl (fun a d => a * 10 + (d.toNat - '0'.toNat)) acc =
      acc * 10 ^ (Api.natDigitsAux fuel n).length + n
  | 0, _, _, h => absurd h (by omega)
  | fuel + 1, n, acc, h => by
    by_cases h10 : n < 10
    · rw [natDigitsAux_small fuel n h10]
      simp only [List.foldl, List.length_cons, List.length_nil, pow_one,
        digitChar_toNat n h10]
      omega
    · have hrec := natDigitsAux_foldl fuel (n / 10) acc (by omega)
      rw [show Api.natDigitsAux (fuel + 1) n =
          Api.natDigitsAux fuel (n / 10) ++ [Char.ofNat ('0'.toNat + n % 10)] from by
        simp [Api.natDigitsAux, h10]]
      rw [List.foldl_append, hrec]
      simp only [List.foldl, List.length_append, List.length_cons, List.length_nil,
        digitChar_toNat (n % 10) (by omega)]
      rw [pow_succ]
      calc (acc * 10 ^ (Api.natDigitsAux fuel (n / 10)).length + n / 10) * 10 +
            ('0'.toNat + n % 10 - '0'.toNat)
          = acc * (10 ^ (Api.natDigitsAux fuel (n / 10)).length * 10) +
            (n / 10 * 10 + n % 10) := by
            have : '0'.toNat + n % 10 - '0'.toNat = n % 10 := by omega
            rw [this]
            ring
        _ = _ := by omega

/-- The fold over the full digit string of `n` recovers `n`. -/
theorem natDigits_foldl (n : Nat) :
    (Api.natDigits n).foldl (fun a d => a * 10 + (d.toNat - '0'.toNat)) 0 = n := by
  have h := natDigitsAux_foldl (n + 1) n 0 (by omega)
  simpa using h

/-- `parseDigitsAux` consumes exactly a digit block followed by a non-digit
boundary, folding the block into the accumulator. -/
theorem parseDigitsAux_run : ∀ (l : List Char), (∀ c ∈ l, Jwt.isDigitChar c = true) →
    ∀ (acc : Nat) (rest : List Char), Jwt.noLeadingDigit rest = true →
    Jwt.parseDigitsAux acc (l ++ rest) =
      (l.foldl (fun a d => a * 10 + (d.toNat - '0'.toNat)) acc, rest)
  | [], _ => by
    intro acc rest hr
    cases rest with
    | nil => rfl
    | cons c r =>
      have hc : Jwt.isDigitChar c = false := by
        simpa [Jwt.noLeadingDigit] using hr
      simp [Jwt.parseDigitsAux, hc]
  | d :: l', hl => by
    intro acc rest hr
    have hd : Jwt.isDigitChar d = true := hl d (by simp)
    have ih := parseDigitsAux_run l' (fun c hc => hl c (by simp [hc]))
      (acc * 10 + (d.toNat - '0'.toNat)) rest hr
    simp only [List.cons_append, Jwt.parseDigitsAux, hd, if_true, List.foldl]
    exact ih

/-! ## JSON string literal round trip -/

/-- Hex parsing inverts hex printing on one digit. -/
theorem hexVal_hexDigit : ∀ k < 16, Jwt.hexVal (Jwt.hexDigit k) = some k := by
  decide

/-- Parsing a string body inverts escaping: the escaped content followed by
the closing quote and arbitrary remainder parses back to the content. -/
theorem parseStrBody_escape : ∀ (s rest : List Char),
    Jwt.parseStrBody (Jwt.escapeBody s ++ '"' :: rest) = some (s, rest)
  | [], rest => by
    show Jwt.parseStrBody ('"' :: rest) = some ([], rest)
    unfold Jwt.parseStrBody
    rw [if_pos rfl]
  | c :: cs, rest => by
    have ih := parseStrBody_escape cs rest
    show Jwt.parseStrBody ((Jwt.escapeChar c ++ Jwt.escapeBody cs) ++ '"' :: rest) = _
    rw [List.append_assoc]
    unfold Jwt.escapeChar
    by_cases h1 : c = '"'
    · subst h1
      simp [Jwt.parseStrBody, Jwt.parseStrEscape, Jwt.simpleEscape, ih]
    by_cases h2 : c = '\\'
    · subst h2
      simp [h1, Jwt.parseStrBody, Jwt.parseStrEscape, Jwt.simpleEscape, ih]
    by_cases h8 : c.toNat = 8
    · have hc : Char.ofNat 8 = c := by rw [← h8, Char.ofNat_toNat]
      simp only [h1, h2, h8, if_false, if_true, eq_self_iff_true, List.cons_append,
        List.nil_append]
      simp [Jwt.parseStrBody, Jwt.parseStrEscape, Jwt.simpleEscape, ih, hc]
      exact hc
    by_cases h9 : c.toNat = 9
    · have hc : Char.ofNat 9 = c := by rw [← h9, Char.ofNat_toNat]
      simp only [h1, h2, h8, h9, if_false, if_true, eq_self_iff_true, List.cons_append,
        List.nil_append]
      simp [Jwt.parseStrBody, Jwt.parseStrEscape, Jwt.simpleEscape, ih, hc]
      exact hc
    by_cases hA : c.toNat = 10
    · have hc : Char.ofNat 10 = c := by rw [← hA, Char.ofNat_toNat]
      simp only [h1, h2, h8, h9, hA, if_false, if_true, eq_self_iff_true, List.cons_append,
        List.nil_append]
      simp [Jwt.parseStrBody, Jwt.parseStrEscape, Jwt.simpleEscape, ih, hc]
      exact hc
    by_cases hC : c.toNat = 12
    · have hc : Char.ofNat 12 = c := by rw [← hC, Char.ofNat_toNat]
      simp only [h1, h2, h8, h9, hA, hC, if_false, if_true, eq_self_iff_true,
        List.cons_append, List.nil_append]
      simp [Jwt.parseStrBody, Jwt.parseStrEscape, Jwt.simpleEscape, ih, hc]
      exact hc
    by_cases hD : c.toNat = 13
    · have hc : Char.ofNat 13 = c := by rw [← hD, Char.ofNat_toNat]
      simp only [h1, h2, h8, h9, hA, hC, hD, if_false, if_true, eq_self_iff_true,
        List.cons_append, List.nil_append]
      simp [Jwt.parseStrBody, Jwt.parseStrEscape, Jwt.simpleEscape, ih, hc]
      exact hc
    by_cases h32 : c.toNat < 32
    · have hx1 := hexVal_hexDigit (c.toNat / 16) (by omega)
      have hx2 := hexVal_hexDigit (c.toNat % 16) (by omega)
      have h0 : Jwt.hexVal '0' = some 0 := by decide
      have hv : (0 : Nat) * 4096 + 0 * 256 + c.toNat / 16 * 16 + c.toNat % 16 = c.toNat := by
        omega
      have hcond : c.toNat < 55296 ∨ 57344 ≤ c.toNat := Or.inl (by omega)
      have hc : Char.ofNat c.toNat = c := Char.ofNat_toNat c
      simp only [h1, h2, h8, h9, hA, hC, hD, h32, if_false, if_true, eq_self_iff_true,
        List.cons_append, List.nil_append]
      simp [Jwt.parseStrBody, Jwt.parseStrEscape, Jwt.parseStrHex, Jwt.simpleEscape,
        h0, hx1, hx2, hv, hcond, ih, hc]
      refine ⟨Or.inl (by omega), ?_⟩
      rw [show c.toNat / 16 * 16 + c.toNat % 16 = c.toNat from by omega]
      exact hc
    · simp only [h1, h2, h8, h9, hA, hC, hD, h32, if_false, List.cons_append,
        List.nil_append]
      simp [Jwt.parseStrBody, h1, h2, h32, ih]

/-! ## Printed values: shape facts -/

/-- A printed integer is never empty. -/
theorem printInt_ne_nil (n : Int) : Jwt.printInt n ≠ [] := by
  unfold Jwt.printInt
  by_cases h : n < 0
  · simp [h]
  · simp [h, natDigits_ne_nil]

/-- The digit list of a natural number, exposed as a head and tail with the
head a decimal digit. -/
theorem natDigits_cons (m : Nat) :
    ∃ d ds, Api.natDigits m = d :: ds ∧ Jwt.isDigitChar d = true ∧
      (∀ c ∈ ds, Jwt.isDigitChar c = true) := by
  rcases hnn : Api.natDigits m with _ | ⟨d, ds⟩
  · exact absurd hnn (natDigits_ne_nil m)
  · refine ⟨d, ds, rfl, ?_, ?_⟩
    · have h := natDigitsAux_digits (m + 1) m d
      rw [show Api.natDigitsAux (m + 1) m = Api.natDigits m from rfl, hnn] at h
      exact h (by simp)
    · intro c hcc
      have h := natDigitsAux_digits (m + 1) m c
      rw [show Api.natDigitsAux (m + 1) m = Api.natDigits m from rfl, hnn] at h
      exact h (by simp [hcc])

/-- Every printed JSON value starts with a character that is neither a
closing bracket nor a closing brace. -/
theorem printJson_head (v : Jwt.Json) :
    ∃ h t, Jwt.printJson v = h :: t ∧ h ≠ ']' ∧ h ≠ '}' := by
  cases v with
  | null => exact ⟨'n', _, rfl, by decide, by decide⟩
  | bool b => cases b with
    | true => exact ⟨'t', _, rfl, by decide, by decide⟩
    | false => exact ⟨'f', _, rfl, by decide, by decide⟩
  | num n =>
    unfold Jwt.printJson Jwt.printInt
    by_cases hn : n < 0
    · exact ⟨'-', _, by rw [if_pos hn], by decide, by decide⟩
    · obtain ⟨d, ds, hds, hd, _⟩ := natDigits_cons n.natAbs
      refine ⟨d, ds, by rw [if_neg hn, hds], ?_, ?_⟩
      · intro he
        rw [he] at hd
        exact absurd hd (by decide)
      · intro he
        rw [he] at hd
        exact absurd hd (by decide)
  | str s => exact ⟨'"', _, rfl, by decide, by decide⟩
  | arr es => cases es with
    | nil => exact ⟨'[', _, rfl, by decide, by decide⟩
    | cons v vs => exact ⟨'[', _, rfl, by decide, by decide⟩
  | obj fs => cases fs with
    | nil => exact ⟨'{', _, rfl, by decide, by decide⟩
    | cons k v fs => exact ⟨'{', _, rfl, by decide, by decide⟩

/-! ## JSON print/parse round trip -/

mutual

/-- With enough fuel, parsing a printed value followed by a non-digit
remainder returns the value and the remainder. -/
theorem parseVal_print : ∀ (v : Jwt.Json) (fuel : Nat) (rest : List Char),
    Jwt.costVal v ≤ fuel → Jwt.noLeadingDigit rest = true →
    Jwt.parseVal fuel (Jwt.printJson v ++ rest) = some (v, rest)
  | .null, fuel, rest, hc, _ => by
    obtain ⟨f, rfl⟩ : ∃ f, fuel = f + 1 := ⟨fuel - 1, by simp [Jwt.costVal] at hc; omega⟩
    show Jwt.parseVal (f + 1) ('n' :: 'u' :: 'l' :: 'l' :: rest) = some (.null, rest)
    simp [Jwt.parseVal, List.isPrefixOf]
    decide
  | .bool true, fuel, rest, hc, _ => by
    obtain ⟨f, rfl⟩ : ∃ f, fuel = f + 1 := ⟨fuel - 1, by simp [Jwt.costVal] at hc; omega⟩
    show Jwt.parseVal (f + 1) ('t' :: 'r' :: 'u' :: 'e' :: rest) = some (.bool true, rest)
    simp [Jwt.parseVal, List.isPrefixOf]
    decide
  | .bool false, fuel, rest, hc, _ => by
    obtain ⟨f, rfl⟩ : ∃ f, fuel = f + 1 := ⟨fuel - 1, by simp [Jwt.costVal] at hc; omega⟩
    show Jwt.parseVal (f + 1) ('f' :: 'a' :: 'l' :: 's' :: 'e' :: rest) = some (.bool false, rest)
    simp [Jwt.parseVal, List.isPrefixOf]
    decide
  | .num n, fuel, rest, hc, hr => by
    obtain ⟨f, rfl⟩ : ∃ f, fuel = f + 1 := ⟨fuel - 1, by simp [Jwt.costVal] at hc; omega⟩
    obtain ⟨d, ds, hds, hd, hall⟩ := natDigits_cons n.natAbs
    have hfold : List.foldl (fun a e => a * 10 + (e.toNat - '0'.toNat))
        (d.toNat - '0'.toNat) ds = n.natAbs := by
      have h0 := natDigits_foldl n.natAbs
      rw [hds] at h0
      simpa using h0
    by_cases hneg : n < 0
    · show Jwt.parseVal (f + 1) (Jwt.printInt n ++ rest) = some (.num n, rest)
      rw [show Jwt.printInt n = '-' :: Api.natDigits n.natAbs from by simp [Jwt.printInt, hneg],
        hds]
      show Jwt.parseVal (f + 1) ('-' :: d :: (ds ++ rest)) = some (.num n, rest)
      unfold Jwt.parseVal
      rw [if_neg (by decide), if_pos rfl]
      simp only [List.head?_cons, List.tail_cons, hd, if_true,
        parseDigitsAux_run ds hall (d.toNat - '0'.toNat) rest hr, hfold,
        Option.some.injEq, Prod.mk.injEq, Jwt.Json.num.injEq, and_true]
      omega
    · show Jwt.parseVal (f + 1) (Jwt.printInt n ++ rest) = some (.num n, rest)
      rw [show Jwt.printInt n = Api.natDigits n.natAbs from by simp [Jwt.printInt, hneg], hds]
      show Jwt.parseVal (f + 1) (d :: (ds ++ rest)) = some (.num n, rest)
      unfold Jwt.parseVal
      rw [if_pos hd]
      simp only [parseDigitsAux_run ds hall (d.toNat - '0'.toNat) rest hr, hfold,
        Option.some.injEq, Prod.mk.injEq, Jwt.Json.num.injEq, and_true]
      omega
  | .str s, fuel, rest, hc, _ => by
    obtain ⟨f, rfl⟩ : ∃ f, fuel = f + 1 := ⟨fuel - 1, by simp [Jwt.costVal] at hc; omega⟩
    show Jwt.parseVal (f + 1) ('"' :: ((Jwt.escapeBody s ++ ['"']) ++ rest)) =
      some (.str s, rest)
    rw [List.append_assoc]
    unfold Jwt.parseVal
    rw [if_neg (by decide), if_neg (by decide), if_pos rfl]
    show (Jwt.parseStrBody (Jwt.escapeBody s ++ '"' :: rest)).map _ = _
    rw [parseStrBody_escape s rest]
    rfl
  | .arr .nil, fuel, rest, hc, _ => by
    obtain ⟨f, rfl⟩ : ∃ f, fuel = f + 1 := ⟨fuel - 1, by simp [Jwt.costVal] at hc; omega⟩
    show Jwt.parseVal (f + 1) ('[' :: ']' :: rest) = some (.arr .nil, rest)
    unfold Jwt.parseVal
    rw [if_neg (by decide), if_neg (by decide), if_neg (by decide), if_pos rfl]
    simp
  | .arr (.cons v vs), fuel, rest, hc, hr => by
    obtain ⟨f, rfl⟩ : ∃ f, fuel = f + 1 := ⟨fuel - 1, by
      simp [Jwt.costVal] at hc; omega⟩
    obtain ⟨h, t, hp, hne, _⟩ := printJson_head v
    have hitems : ∃ t2, Jwt.printItems (Jwt.JsonArr.cons v vs) = h :: t2 := by
      cases vs with
      | nil => exact ⟨t, by simp [Jwt.printItems, hp]⟩
      | cons w ws =>
        exact ⟨t ++ ',' :: Jwt.printItems (Jwt.JsonArr.cons w ws),
          by simp [Jwt.printItems, hp]⟩
    obtain ⟨t2, ht2⟩ := hitems
    show Jwt.parseVal (f + 1)
      ('[' :: ((Jwt.printItems (Jwt.JsonArr.cons v vs) ++ [']']) ++ rest)) =
      some (.arr (.cons v vs), rest)
    rw [List.append_assoc]
    unfold Jwt.parseVal
    rw [if_neg (by decide), if_neg (by decide), if_neg (by decide), if_pos rfl]
    rw [if_neg (by rw [ht2]; simp [hne])]
    have hcost2 : Jwt.costItems (Jwt.JsonArr.cons v vs) ≤ f := by
      simp [Jwt.costVal] at hc
      omega
    rw [show ([']'] : List Char) ++ rest = ']' :: rest from rfl,
      parseItems_print (Jwt.JsonArr.cons v vs) f rest (by intro hh; cases hh) hcost2 hr]
    rfl
  | .obj .nil, fuel, rest, hc, _ => by
    obtain ⟨f, rfl⟩ : ∃ f, fuel = f + 1 := ⟨fuel - 1, by simp [Jwt.costVal] at hc; omega⟩
    show Jwt.parseVal (f + 1) ('{' :: '}' :: rest) = some (.obj .nil, rest)
    unfold Jwt.parseVal
    rw [if_neg (by decide), if_neg (by decide), if_neg (by decide), if_neg (by decide),
      if_pos rfl]
    simp
  | .obj (.cons k v fs), fuel, rest, hc, hr => by
    obtain ⟨f, rfl⟩ : ∃ f, fuel = f + 1 := ⟨fuel - 1, by
      simp [Jwt.costVal] at hc; omega⟩
    have hfields : ∃ t2, Jwt.printFields (Jwt.JsonObj.cons k v fs) = '"' :: t2 := by
      cases fs with
      | nil =>
        exact ⟨(Jwt.escapeBody k ++ ['"']) ++ ':' :: Jwt.printJson v,
          by simp [Jwt.printFields, Jwt.printStr]⟩
      | cons k2 v2 fs2 =>
        exact ⟨(Jwt.escapeBody k ++ ['"']) ++ ':' :: (Jwt.printJson v ++
            ',' :: Jwt.printFields (Jwt.JsonObj.cons k2 v2 fs2)),
          by simp [Jwt.printFields, Jwt.printStr]⟩
    obtain ⟨t2, ht2⟩ := hfields
    show Jwt.parseVal (f + 1)
      ('{' :: ((Jwt.printFields (Jwt.JsonObj.cons k v fs) ++ ['}']) ++ rest)) =
      some (.obj (.cons k v fs), rest)
    rw [List.append_assoc]
    unfold Jwt.parseVal
    rw [if_neg (by decide), if_neg (by decide), if_neg (by decide), if_neg (by decide),
      if_pos rfl]
    rw [if_neg (by rw [ht2]; simp)]
    have hcost2 : Jwt.costFields (Jwt.JsonObj.cons k v fs) ≤ f := by
      simp [Jwt.costVal] at hc
      omega
    rw [show (['}'] : List Char) ++ rest = '}' :: rest from rfl,
      parseFields_print (Jwt.JsonObj.cons k v fs) f rest (by intro hh; cases hh) hcost2 hr]
    rfl

theorem parseItems_print : ∀ (es : Jwt.JsonArr) (fuel : Nat) (rest : List Char),
    es ≠ .nil → Jwt.costItems es ≤ fuel → Jwt.noLeadingDigit rest = true →
    Jwt.parseItems fuel (Jwt.printItems es ++ ']' :: rest) = some (es, rest)
  | .nil, _, _, hne, _, _ => absurd rfl hne
  | .cons v vs, fuel, rest, _, hcost, hr => by
    obtain ⟨f, rfl⟩ : ∃ f, fuel = f + 1 := ⟨fuel - 1, by
      simp [Jwt.costItems] at hcost; omega⟩
    have hcv : Jwt.costVal v ≤ f := by
      simp [Jwt.costItems] at hcost
      omega
    cases vs with
    | nil =>
      rw [show Jwt.printItems (Jwt.JsonArr.cons v .nil) = Jwt.printJson v from rfl]
      unfold Jwt.parseItems
      rw [parseVal_print v f (']' :: rest) hcv rfl]
      simp
    | cons w ws =>
      rw [show Jwt.printItems (Jwt.JsonArr.cons v (Jwt.JsonArr.cons w ws)) =
          Jwt.printJson v ++ ',' :: Jwt.printItems (Jwt.JsonArr.cons w ws) from rfl,
        List.append_assoc]
      unfold Jwt.parseItems
      rw [show (',' :: Jwt.printItems (Jwt.JsonArr.cons w ws)) ++ ']' :: rest =
          ',' :: (Jwt.printItems (Jwt.JsonArr.cons w ws) ++ ']' :: rest) from rfl]
      rw [parseVal_print v f
        (',' :: (Jwt.printItems (Jwt.JsonArr.cons w ws) ++ ']' :: rest)) hcv rfl]
      have hrec := parseItems_print (Jwt.JsonArr.cons w ws) f rest (by intro hh; cases hh)
        (by simp [Jwt.costItems] at hcost ⊢; omega) hr
      simp [hrec]

theorem parseFields_print : ∀ (fs : Jwt.JsonObj) (fuel : Nat) (rest : List Char),
    fs ≠ .nil → Jwt.costFields fs ≤ fuel → Jwt.noLeadingDigit rest = true →
    Jwt.parseFields fuel (Jwt.printFields fs ++ '}' :: rest) = some (fs, rest)
  | .nil, _, _, hne, _, _ => absurd rfl hne
  | .cons k v fs, fuel, rest, _, hcost, hr => by
    obtain ⟨f, rfl⟩ : ∃ f, fuel = f + 1 := ⟨fuel - 1, by
      simp [Jwt.costFields] at hcost; omega⟩
    have hcv : Jwt.costVal v ≤ f := by
      simp [Jwt.costFields] at hcost
      omega
    cases fs with
    | nil =>
      have hnorm : (Jwt.printFields (Jwt.JsonObj.cons k v .nil) ++ '}' :: rest) =
          '"' :: (Jwt.escapeBody k ++ '"' :: (':' :: (Jwt.printJson v ++ '}' :: rest))) := by
        simp [Jwt.printFields, Jwt.printStr]
      rw [hnorm]
      unfold Jwt.parseFields
      simp only [List.head?_cons, if_true, eq_self_iff_true]
      simp only [List.tail_cons, parseStrBody_escape k, List.head?_cons,
        parseVal_print v f ('}' :: rest) hcv rfl]
      simp
    | cons k2 v2 fs2 =>
      have hnorm : (Jwt.printFields (Jwt.JsonObj.cons k v (Jwt.JsonObj.cons k2 v2 fs2)) ++
          '}' :: rest) =
          '"' :: (Jwt.escapeBody k ++ '"' :: (':' :: (Jwt.printJson v ++
            ',' :: (Jwt.printFields (Jwt.JsonObj.cons k2 v2 fs2) ++ '}' :: rest)))) := by
        simp [Jwt.printFields, Jwt.printStr]
      rw [hnorm]
      unfold Jwt.parseFields
      simp only [List.head?_cons, if_true, eq_self_iff_true]
      have hrec := parseFields_print (Jwt.JsonObj.cons k2 v2 fs2) f rest
        (by intro hh; cases hh) (by simp [Jwt.costFields] at hcost ⊢; omega) hr
      simp only [List.tail_cons, parseStrBody_escape k, List.head?_cons,
        parseVal_print v f (',' :: (Jwt.printFields (Jwt.JsonObj.cons k2 v2 fs2) ++
          '}' :: rest)) hcv rfl, hrec]
      simp [hrec]

end

mutual

/-- The parse budget of a value is at most its printed length. -/
theorem costVal_le_print : ∀ v : Jwt.Json, Jwt.costVal v ≤ (Jwt.printJson v).length
  | .null => by decide
  | .bool true => by decide
  | .bool false => by decide
  | .num n => by
    have h := printInt_ne_nil n
    have : 0 < (Jwt.printInt n).length := List.length_pos.mpr h
    simp only [Jwt.costVal, Jwt.printJson]
    omega
  | .str s => by
    show 1 ≤ (Jwt.printStr s).length
    simp only [Jwt.printStr, List.length_append, List.length_cons]
    omega
  | .arr .nil => by decide
  | .arr (.cons v vs) => by
    have h := costItems_le_print (Jwt.JsonArr.cons v vs)
    simp only [Jwt.costVal, Jwt.printJson, List.length_cons, List.length_append,
      List.length_singleton] at h ⊢
    omega
  | .obj .nil => by decide
  | .obj (.cons k v fs) => by
    have h := costFields_le_print (Jwt.JsonObj.cons k v fs)
    simp only [Jwt.costVal, Jwt.printJson, List.length_cons, List.length_append,
      List.length_singleton] at h ⊢
    omega

/-- The parse budget of an element list is at most its printed length plus
one. -/
theorem costItems_le_print : ∀ es : Jwt.JsonArr,
    Jwt.costItems es ≤ (Jwt.printItems es).length + 1
  | .nil => by simp [Jwt.costItems]
  | .cons v .nil => by
    have h := costVal_le_print v
    simp only [Jwt.costItems, Jwt.printItems]
    omega
  | .cons v (.cons w ws) => by
    have h1 := costVal_le_print v
    have h2 := costItems_le_print (Jwt.JsonArr.cons w ws)
    simp only [Jwt.costItems, Jwt.printItems, List.length_append, List.length_cons] at h2 ⊢
    omega

/-- The parse budget of a field list is at most its printed length plus one. -/
theorem costFields_le_print : ∀ fs : Jwt.JsonObj,
    Jwt.costFields fs ≤ (Jwt.printFields fs).length + 1
  | .nil => by simp [Jwt.costFields]
  | .cons k v .nil => by
    have h := costVal_le_print v
    simp only [Jwt.costFields, Jwt.printFields, List.length_append, List.length_cons]
    omega
  | .cons k v (.cons k2 v2 fs2) => by
    have h1 := costVal_le_print v
    have h2 := costFields_le_print (Jwt.JsonObj.cons k2 v2 fs2)
    simp only [Jwt.costFields, Jwt.printFields, List.length_append, List.length_cons] at h2 ⊢
    omega

end

/-- `jsonParse` inverts `printJson`. -/
theorem jsonParse_print (v : Jwt.Json) : Jwt.jsonParse (Jwt.printJson v) = some v := by
  unfold Jwt.jsonParse
  have hc : Jwt.costVal v ≤ (Jwt.printJson v).length + 1 :=
    le_trans (costVal_le_print v) (by omega)
  have h := parseVal_print v ((Jwt.printJson v).length + 1) [] hc rfl
  rw [List.append_nil] at h
  rw [h]

/-! ## Token normalization and segmentation -/

/-- `replaceAllAux` is the identity when the pattern head never occurs. -/
theorem replaceAllAux_id (p : Char) (ps rep : List Char) :
    ∀ (fuel : Nat) (s : List Char), (∀ c ∈ s, c ≠ p) →
    replaceAllAux (p :: ps) rep fuel s = s
  | 0, _, _ => rfl
  | Nat.succ _, [], _ => rfl
  | Nat.succ fuel, c :: rest, h => by
    have hc : c ≠ p := h c (by simp)
    have hpre : ¬((p :: ps ≠ []) ∧ (p :: ps).isPrefixOf (c :: rest) = true) := by
      rintro ⟨_, hpf⟩
      simp [List.isPrefixOf] at hpf
      exact hc hpf.1.symm
    unfold replaceAllAux
    rw [if_neg hpre, replaceAllAux_id p ps rep fuel rest fun c2 hc2 => h c2 (by simp [hc2])]

/-- `replaceAllL` is the identity when the pattern head never occurs. -/
theorem replaceAllL_id (s : List Char) (p : Char) (ps rep : List Char)
    (h : ∀ c ∈ s, c ≠ p) : replaceAllL s (p :: ps) rep = s :=
  replaceAllAux_id p ps rep s.length s h

/-- No colon, no `::` marker. -/
theorem afterDoubleColon_none : ∀ s : List Char, (∀ c ∈ s, c ≠ ':') →
    afterDoubleColon s = none
  | [], _ => rfl
  | c :: rest, h => by
    unfold afterDoubleColon
    rw [if_neg fun hh => h c (by simp) hh.1,
      afterDoubleColon_none rest fun c2 hc2 => h c2 (by simp [hc2])]

/-- Step equation for `splitOnDot` on a cons cell. -/
theorem splitOnDot_cons (c : Char) (rest : List Char) :
    splitOnDot (c :: rest) =
      if c = '.' then [] :: splitOnDot rest
      else match splitOnDot rest with
        | s :: ss => (c :: s) :: ss
        | [] => [[c]] := rfl

/-- Splitting at an explicit separator after a dot-free block. -/
theorem splitOnDot_append : ∀ (a s : List Char), (∀ c ∈ a, c ≠ '.') →
    splitOnDot (a ++ '.' :: s) = a :: splitOnDot s
  | [], s, _ => by
    show splitOnDot ('.' :: s) = [] :: splitOnDot s
    rw [splitOnDot_cons, if_pos rfl]
  | c :: a2, s, h => by
    have hc : c ≠ '.' := h c (by simp)
    show splitOnDot (c :: (a2 ++ '.' :: s)) = (c :: a2) :: splitOnDot s
    rw [splitOnDot_cons, if_neg hc, splitOnDot_append a2 s fun c2 hc2 => h c2 (by simp [hc2])]

/-- A dot-free string splits into itself. -/
theorem splitOnDot_single : ∀ s : List Char, (∀ c ∈ s, c ≠ '.') →
    splitOnDot s = [s]
  | [], _ => rfl
  | c :: rest, h => by
    rw [splitOnDot_cons, if_neg (h c (by simp)),
      splitOnDot_single rest fun c2 hc2 => h c2 (by simp [hc2])]

/-- Every character emitted by `encodeB64Url` on byte input lies in the
base64url alphabet. -/
theorem encodeB64Url_mem : ∀ bs : List Nat, (∀ b ∈ bs, b < 256) →
    ∀ c ∈ Jwt.encodeB64Url bs, ∃ k, k < 64 ∧ c = Jwt.b64Char k
  | [], _ => by simp [Jwt.encodeB64Url]
  | [b1], h => by
    intro c hc
    have hb1 : b1 < 256 := h b1 (by simp)
    simp only [Jwt.encodeB64Url, List.mem_cons, List.not_mem_nil, or_false] at hc
    rcases hc with hc | hc
    · exact ⟨b1 / 4, by omega, hc⟩
    · exact ⟨b1 % 4 * 16, by omega, hc⟩
  | [b1, b2], h => by
    intro c hc
    have hb1 : b1 < 256 := h b1 (by simp)
    have hb2 : b2 < 256 := h b2 (by simp)
    simp only [Jwt.encodeB64Url, List.mem_cons, List.not_mem_nil, or_false] at hc
    rcases hc with hc | hc | hc
    · exact ⟨b1 / 4, by omega, hc⟩
    · exact ⟨b1 % 4 * 16 + b2 / 16, by omega, hc⟩
    · exact ⟨b2 % 16 * 4, by omega, hc⟩
  | b1 :: b2 :: b3 :: rest, h => by
    intro c hc
    have hb1 : b1 < 256 := h b1 (by simp)
    have hb2 : b2 < 256 := h b2 (by simp)
    have hb3 : b3 < 256 := h b3 (by simp)
    simp only [Jwt.encodeB64Url, List.mem_cons] at hc
    rcases hc with hc | hc | hc | hc | hc
    · exact ⟨b1 / 4, by omega, hc⟩
    · exact ⟨b1 % 4 * 16 + b2 / 16, by omega, hc⟩
    · exact ⟨b2 % 16 * 4 + b3 / 64, by omega, hc⟩
    · exact ⟨b3 % 64, by omega, hc⟩
    · exact encodeB64Url_mem rest
        (fun b hb => h b (by simp only [List.mem_cons] at hb ⊢; tauto)) c hc

/-- A token segment built by `encodeSegment` never contains a dot, percent or
colon. -/
theorem encodeSegment_chars (v : Jwt.Json) :
    ∀ c ∈ Jwt.encodeSegment v, c ≠ '.' ∧ c ≠ '%' ∧ c ≠ ':' := by
  intro c hc
  obtain ⟨k, hk, hck⟩ :=
    encodeB64Url_mem (Jwt.utf8Encode (Jwt.printJson v)) (utf8Encode_lt _) c hc
  exact hck ▸ b64Char_ne k hk

/-- `normalizeToken` is the identity on tokens free of `%` and `:`. -/
theorem normalizeToken_id (t : List Char) (h : ∀ c ∈ t, c ≠ '%' ∧ c ≠ ':') :
    Jwt.normalizeToken t = t := by
  have e1 : replaceAllL t "%3A".data ":".data = t := by
    rw [show ("%3A".data : List Char) = '%' :: "3A".data from rfl]
    exact replaceAllL_id t '%' "3A".data ":".data fun c hc => (h c hc).1
  have e2 : replaceAllL t "%253A".data ":".data = t := by
    rw [show ("%253A".data : List Char) = '%' :: "253A".data from rfl]
    exact replaceAllL_id t '%' "253A".data ":".data fun c hc => (h c hc).1
  have e3 : afterDoubleColon t = none := afterDoubleColon_none t fun c hc => (h c hc).2
  simp only [Jwt.normalizeToken, e1, e2, e3]

/-- Decoding a freshly built three-segment token recovers the payload. -/
theorem decodePayload_buildToken (p : Jwt.Json) :
    Jwt.decodePayload (Jwt.buildToken p) = .ok p := by
  have hseg := encodeSegment_chars Jwt.headerJson
  have hseg2 := encodeSegment_chars p
  have hsig : ∀ c ∈ ("signature".data : List Char), c ≠ '.' ∧ c ≠ '%' ∧ c ≠ ':' := by
    decide
  have hdata : (Jwt.buildToken p).data =
      Jwt.encodeSegment Jwt.headerJson ++ '.' ::
        (Jwt.encodeSegment p ++ '.' :: "signature".data) := rfl
  have hchars : ∀ c ∈ (Jwt.buildToken p).data, c ≠ '%' ∧ c ≠ ':' := by
    rw [hdata]
    intro c hc
    rcases List.mem_append.mp hc with h1 | h2
    · exact ⟨(hseg c h1).2.1, (hseg c h1).2.2⟩
    rcases List.mem_cons.mp h2 with rfl | h3
    · exact ⟨by decide, by decide⟩
    rcases List.mem_append.mp h3 with h4 | h5
    · exact ⟨(hseg2 c h4).2.1, (hseg2 c h4).2.2⟩
    rcases List.mem_cons.mp h5 with rfl | h6
    · exact ⟨by decide, by decide⟩
    exact ⟨(hsig c h6).2.1, (hsig c h6).2.2⟩
  have hnorm : Jwt.normalizeToken (Jwt.buildToken p).data = (Jwt.buildToken p).data :=
    normalizeToken_id _ hchars
  have hsplit : splitOnDot (Jwt.buildToken p).data =
      [Jwt.encodeSegment Jwt.headerJson, Jwt.encodeSegment p, "signature".data] := by
    rw [hdata, splitOnDot_append _ _ fun c hc => (hseg c hc).1,
      splitOnDot_append _ _ fun c hc => (hseg2 c hc).1,
      splitOnDot_single _ fun c hc => (hsig c hc).1]
  simp only [Jwt.decodePayload, hnorm, hsplit, Jwt.encodeSegment,
    b64_roundtrip _ (utf8Encode_lt _), utf8Decode_encode, jsonParse_print]

/-- Decoding a freshly built two-segment token recovers the payload. -/
theorem decodePayload_buildTokenNoSig (p : Jwt.Json) :
    Jwt.decodePayload (Jwt.buildTokenNoSig p) = .ok p := by
  have hseg := encodeSegment_chars Jwt.headerJson
  have hseg2 := encodeSegment_chars p
  have hdata : (Jwt.buildTokenNoSig p).data =
      Jwt.encodeSegment Jwt.headerJson ++ '.' :: Jwt.encodeSegment p := rfl
  have hchars : ∀ c ∈ (Jwt.buildTokenNoSig p).data, c ≠ '%' ∧ c ≠ ':' := by
    rw [hdata]
    intro c hc
    rcases List.mem_append.mp hc with h1 | h2
    · exact ⟨(hseg c h1).2.1, (hseg c h1).2.2⟩
    rcases List.mem_cons.mp h2 with rfl | h3
    · exact ⟨by decide, by decide⟩
    exact ⟨(hseg2 c h3).2.1, (hseg2 c h3).2.2⟩
  have hnorm : Jwt.normalizeToken (Jwt.buildTokenNoSig p).data =
      (Jwt.buildTokenNoSig p).data := normalizeToken_id _ hchars
  have hsplit : splitOnDot (Jwt.buildTokenNoSig p).data =
      [Jwt.encodeSegment Jwt.headerJson, Jwt.encodeSegment p] := by
    rw [hdata, splitOnDot_append _ _ fun c hc => (hseg c hc).1,
      splitOnDot_single _ fun c hc => (hseg2 c hc).1]
  simp only [Jwt.decodePayload, hnorm, hsplit, Jwt.encodeSegment,
    b64_roundtrip _ (utf8Encode_lt _), utf8Decode_encode, jsonParse_print]

/-- C7. `decodePayload` round-trips: for every JSON object, building a token
whose second dot-separated segment is the base64url encoding of the object's
serialization — with a base64url header segment, and with or without a
signature segment — and applying `decodePayload` yields a structurally equal
object. -/
theorem decodePayload_roundtrip (fields : Jwt.JsonObj) :
    Jwt.decodePayload (Jwt.buildToken (.obj fields)) = .ok (.obj fields) ∧
    Jwt.decodePayload (Jwt.buildTokenNoSig (.obj fields)) = .ok (.obj fields) :=
  ⟨decodePayload_buildToken (.obj fields), decodePayload_buildTokenNoSig (.obj fields)⟩

end Cursor
